import Mathlib

/-!
Shallow embedding of the `unison` multipath UDP tunnel (Rust) and proofs
about its per-packet pipeline: the trailer bitfield (`src/types.rs`), the
sender's fragmentation and SNAT paths (`src/sender.rs`), the receiver's
ordered reassembly loop (`src/receiver.rs`) and the whitelist admission
server (`src/whitelist.rs`).

Machine integers are modelled as `Nat` with explicit `% 2^w` where the Rust
code can overflow; byte buffers are `List Nat` (each element a byte value);
Rust panics (slice-index panics, out-of-range bitfield setters, division by
zero) are modelled by `Option`, with `none` for the panicking execution.
-/

namespace Unison

/-! ## Trailer bitfield (`src/types.rs`, `Payload`)

`Payload` is a `modular_bitfield` struct with fields `fragments: B3`,
`sequence: B26`, `fragment: B3`.  The crate packs fields LSB-first into a
32-bit value: `fragments` occupies bits 0..3, `sequence` bits 3..29,
`fragment` bits 29..32.  `into_bytes` serialises that value in little-endian
byte order; `from_bytes` is its inverse.  The generated `with_*` setters
panic when the value does not fit the field, modelled here by `Option`. -/

/-- The `Payload::new()` constructor: all fields zero. -/
def Payload.new : Nat := 0

/-- `with_fragments` setter: bits 0..3.  Panics (`none`) if the value needs
more than 3 bits. -/
def Payload.withFragments (v f : Nat) : Option Nat :=
  if f < 8 then some (v / 8 * 8 + f) else none

/-- `with_sequence` setter: bits 3..29.  Panics (`none`) if the value needs
more than 26 bits. -/
def Payload.withSequence (v s : Nat) : Option Nat :=
  if s < 2 ^ 26 then some (v % 8 + s * 8 + v / 2 ^ 29 * 2 ^ 29) else none

/-- `with_fragment` setter: bits 29..32.  Panics (`none`) if the value needs
more than 3 bits. -/
def Payload.withFragment (v i : Nat) : Option Nat :=
  if i < 8 then some (v % 2 ^ 29 + i * 2 ^ 29) else none

/-- `fragments()` getter: bits 0..3. -/
def Payload.fragments (v : Nat) : Nat := v % 8

/-- `sequence()` getter: bits 3..29. -/
def Payload.sequence (v : Nat) : Nat := v / 8 % 2 ^ 26

/-- `fragment()` getter: bits 29..32. -/
def Payload.fragment (v : Nat) : Nat := v / 2 ^ 29 % 8

/-- `into_bytes()`: the packed 32-bit value in little-endian byte order. -/
def Payload.intoBytes (v : Nat) : List Nat :=
  [v % 256, v / 256 % 256, v / 65536 % 256, v / 16777216 % 256]

/-- `from_bytes()`: rebuild the packed value from 4 little-endian bytes. -/
def Payload.fromBytes (bs : List Nat) : Nat :=
  match bs with
  | [b0, b1, b2, b3] => b0 + b1 * 256 + b2 * 65536 + b3 * 16777216
  | _ => 0

/-- `Payload::len()`: the trailer is 4 bytes. -/
def Payload.len : Nat := 4

/-- The sender's trailer construction
(`Payload::new().with_sequence(id).with_fragments(fragments).with_fragment(fragment)`,
`src/sender.rs` lines 181-187): `none` models the Rust panic of an
out-of-range bitfield setter. -/
def buildTrailer (seq fragments fragment : Nat) : Option Nat := do
  let v0 := Payload.new
  let v1 ← Payload.withSequence v0 seq
  let v2 ← Payload.withFragments v1 fragments
  Payload.withFragment v2 fragment

/-! ## Sender fragmentation (`src/sender.rs` lines 102-109, 145-178) -/

/-- Fragment count (`src/sender.rs` lines 102-106): `F = min(configured
fragments, interfaces.len() as u8)` when the UDP payload is at least
`fragment_threshold` bytes long, else 1 (the `as u8` cast truncates the
interface count modulo 256). -/
def computeFragments (payloadLen threshold fragments numInterfaces : Nat) : Nat :=
  if payloadLen ≥ threshold then min fragments (numInterfaces % 256) else 1

/-- The UDP payload slice carried by fragment `i` of `F`
(`src/sender.rs` lines 168-178): fragments `0..F-2` carry
`udp_payload[i*q..(i+1)*q]` with `q = len / F`; the last fragment carries
`udp_payload[(F-1)*q..]`; with `F = 1` the payload is copied whole. -/
def fragmentSlice (payload : List Nat) (F i : Nat) : List Nat :=
  let q := payload.length / F
  if F > 1 then
    if i = F - 1 then payload.drop (i * q)
    else (payload.drop (i * q)).take q
  else payload

/-! ## Byte-buffer helpers

Packet buffers are `List Nat` of byte values.  `setBytes` models Rust's
`buf[a..b].copy_from_slice(&vals)` (all uses in the source are in-bounds);
`getBytes` reads a sub-range; `be16` / `readBE16` are the big-endian 16-bit
encodings used by the IP/UDP header fields. -/

/-- Overwrite `vals.length` bytes of `l` starting at `pos`
(`copy_from_slice`); writes past the end of `l` are dropped. -/
def setBytes : List Nat → Nat → List Nat → List Nat
  | l, _, [] => l
  | l, pos, v :: vs => setBytes (l.set pos v) (pos + 1) vs

/-- Read `n` bytes of `l` starting at `pos`. -/
def getBytes (l : List Nat) (pos n : Nat) : List Nat :=
  (l.drop pos).take n

/-- A 16-bit value in network byte order (big-endian), as written by
`u16::to_be_bytes` and the pnet header setters. -/
def be16 (v : Nat) : List Nat := [v / 256 % 256, v % 256]

/-- Read a big-endian 16-bit field at `pos` (pnet header getters). -/
def readBE16 (l : List Nat) (pos : Nat) : Nat :=
  (l[pos]?).getD 0 * 256 + (l[pos + 1]?).getD 0

/-- `4 * ip_packet.get_header_length()`: the IP header length in bytes
(4 times the low nibble of byte 0). -/
def ipHeaderLenOf (payload : List Nat) : Nat :=
  4 * (payload.getD 0 0 % 16)

/-- The `for byte in &mut extra_payload { *byte = 0 }` loop of
`src/receiver.rs` lines 107-110.  In the source, `extra_payload` is an owned
`[u8; 4]` produced by `try_into()` from the trailer slice (the type is fixed
by `Payload::from_bytes`, which takes `[u8; 4]` by value), so the loop zeroes
this local copy and leaves the queue message's buffer untouched. -/
def zeroCopy (bs : List Nat) : List Nat := bs.map (fun _ => 0)

/-! ## Sender (`src/sender.rs`, `listen`)

The per-message body of the sender loop (lines 91-243).  Environmental
effects (the netfilter queue itself, `SO_MARK`, raw-socket errors, which are
logged and skipped) are outside the model; what is modelled is the packet
construction, the per-interface/per-endpoint send set, the sequence counter
and the statistics counters.  Randomness for the `Random`/`Rotating`
source-port strategies is an environmental input, carried as the drawn value
inside the strategy. -/

/-- A SNAT `Source` (`src/types.rs`): stable `(ip, port)` plus the set of
last-seen remote endpoints (`addrs` keys); `LastSeen` timestamps and sockets
are environmental. An endpoint is `(ipv4 octets, port)`. -/
structure SourceM where
  ip : List Nat
  port : Nat
  addrs : List (List Nat × Nat)
deriving DecidableEq

/-- `SourceStrategy` (`src/sender.rs` lines 17-26, 111-126): `random` carries
the value drawn from `rand::thread_rng` for this packet, `rotating` the
strategy's current rotated port. -/
inductive SourceStrategy where
  | original
  | fixed (p : Nat)
  | random (draw : Nat)
  | rotating (current : Nat)
deriving DecidableEq

/-- The subset of `SenderConfiguration` the per-message body reads. -/
structure SenderConfig where
  snat : Bool
  destination : Option (List Nat)
  fragments : Nat
  fragmentThreshold : Nat
  strategy : SourceStrategy
deriving DecidableEq

/-- One `send_to` call: the interface index, the socket address sent to
(`(ipv4 octets, port)`), and the raw bytes. -/
structure SendRec where
  iface : Nat
  dest : List Nat × Nat
  packet : List Nat
deriving DecidableEq

/-- Sender-side mutable state and counters: the sequence counter `id` (u32)
and the statistics the sender writes (`send_total`, `send_current`,
per-interface `send_packets`). -/
structure SenderState where
  id : Nat
  sendTotal : Nat
  sendCurrent : Nat
  ifacePackets : List Nat
deriving DecidableEq

/-- Result of one sender iteration: the new state and the send calls made.
The original queue message is always answered with verdict DROP. -/
structure SenderStep where
  st : SenderState
  sends : List SendRec
deriving DecidableEq

/-- `sources.read().get(&src_port)` on the `HashMap<u16, Source>`. -/
def lookupSrc (sources : List (Nat × SourceM)) (p : Nat) : Option SourceM :=
  (sources.find? (fun kv => kv.1 == p)).map (fun kv => kv.2)

/-- The source port the sender uses for a packet (`src/sender.rs` lines
111-126), per strategy. -/
def resolveSrcPort (strategy : SourceStrategy) (payload : List Nat) : Nat :=
  match strategy with
  | .original => readBE16 payload (ipHeaderLenOf payload)
  | .fixed p => p
  | .random d => d
  | .rotating c => c

/-- The destination IP used for the non-SNAT `send_to` (`src/sender.rs`
lines 128-136): the configured override, or the packet's own. -/
def destIpOf (destination : Option (List Nat)) (payload : List Nat) : List Nat :=
  match destination with
  | some d => d
  | none => getBytes payload 16 4

/-- The message's IP header after the optional `set_destination` rewrite
(`src/sender.rs` line 131). -/
def ipHeader0Of (destination : Option (List Nat)) (payload : List Nat) : List Nat :=
  match destination with
  | some d => setBytes (payload.take (ipHeaderLenOf payload)) 16 d
  | none => payload.take (ipHeaderLenOf payload)

/-- The `udp_len` of one fragment (`src/sender.rs` lines 148-155):
`UDP_HEADER + fragment_len + remainder-if-last + Payload::len()`. -/
def fragmentUdpLen (payloadLen fragments fragment : Nat) : Nat :=
  8 + payloadLen / fragments +
    (if 1 < fragments ∧ fragment = fragments - 1 then payloadLen % fragments else 0) +
    Payload.len

/-- Build the datagram for one fragment (`src/sender.rs` lines 157-187):
IP header with patched total length, UDP header with patched length, the
payload slice for this fragment, and the 4-byte trailer.  `none` models the
panic of an out-of-range bitfield setter in the trailer construction. -/
def buildFragmentPacket (ipHeader udpHeader udpPayload : List Nat)
    (ipHeaderLen fragments fragment id : Nat) : Option (List Nat) := do
  let udpLen := fragmentUdpLen udpPayload.length fragments fragment
  let tr ← buildTrailer id fragments (fragment % fragments)
  let hdr := setBytes (setBytes (ipHeader ++ udpHeader) 2
    (be16 ((ipHeaderLen + udpLen) % 2 ^ 16))) (ipHeaderLen + 4)
    (be16 (udpLen % 2 ^ 16))
  some (hdr ++ fragmentSlice udpPayload fragments fragment ++ Payload.intoBytes tr)

/-- The SNAT rewrite of one outgoing copy (`src/sender.rs` lines 198-204):
source ip/port become the Source's, destination ip/port become the stored
remote endpoint's. -/
def snatPatch (pkt : List Nat) (ipHeaderLen : Nat) (src : SourceM)
    (ep : List Nat × Nat) : List Nat :=
  setBytes (setBytes (setBytes (setBytes pkt 12 src.ip)
    ipHeaderLen (be16 (src.port % 2 ^ 16))) 16 ep.1)
    (ipHeaderLen + 2) (be16 (ep.2 % 2 ^ 16))

/-- The per-interface loop (`src/sender.rs` lines 145-234), producing the
list of `send_to` calls; `j` is the `enumerate` index.  In SNAT mode, when
`sources` has no entry for `srcPort`, an interface contributes no sends. -/
def senderLoop (cfg : SenderConfig) (sources : List (Nat × SourceM))
    (ipHeader udpHeader udpPayload : List Nat)
    (ipHeaderLen fragments id srcPort : Nat) (dstIp : List Nat) (dstPort : Nat) :
    List (List Nat) → Nat → Option (List SendRec)
  | [], _ => some []
  | iface :: rest, j => do
    let fragment := j % fragments
    let pkt ← buildFragmentPacket ipHeader udpHeader udpPayload ipHeaderLen
      fragments fragment id
    let here : List SendRec :=
      if cfg.snat then
        match lookupSrc sources srcPort with
        | some source =>
          source.addrs.map (fun ep =>
            ⟨j, ep, snatPatch pkt ipHeaderLen source ep⟩)
        | none => []
      else
        [⟨j, (dstIp, dstPort),
          setBytes (setBytes pkt 12 iface) ipHeaderLen (be16 (srcPort % 2 ^ 16))⟩]
    let restSends ← senderLoop cfg sources ipHeader udpHeader udpPayload
      ipHeaderLen fragments id srcPort dstIp dstPort rest (j + 1)
    some (here ++ restSends)

/-- Whether a queue message enters the sender's main block
(`src/sender.rs` lines 94-101): parses as IPv4 (≥ 20 bytes), protocol UDP,
the header-length splits stay in bounds, and the IP header view is at least
20 bytes (`MutableIpv4Packet::new`). -/
def senderAccepts (payload : List Nat) : Bool :=
  20 ≤ payload.length && payload.getD 9 0 == 17 &&
    4 * (payload.getD 0 0 % 16) + 8 ≤ payload.length &&
    5 ≤ payload.getD 0 0 % 16

/-- One iteration of the sender loop body on a queue message
(`src/sender.rs` lines 91-243).  `none` models a Rust panic: an
out-of-bounds `split_at_mut`, a division by zero when the fragment count is
0, or an out-of-range trailer bitfield setter.  A message that fails the
`if let` chain is answered with DROP and touches no state. -/
def senderStep (cfg : SenderConfig) (interfaces : List (List Nat))
    (sources : List (Nat × SourceM)) (st : SenderState) (payload : List Nat) :
    Option SenderStep :=
  if payload.length < 20 then some ⟨st, []⟩
  else if payload.getD 9 0 ≠ 17 then some ⟨st, []⟩
  else
    let ipHeaderLen := ipHeaderLenOf payload
    if ipHeaderLen > payload.length then none
    else if payload.length - ipHeaderLen < 8 then none
    else if ipHeaderLen < 20 then some ⟨st, []⟩
    else
      let udpPayload := (payload.drop ipHeaderLen).drop 8
      let fragments := computeFragments udpPayload.length cfg.fragmentThreshold
        cfg.fragments interfaces.length
      if fragments = 0 then none
      else
        let srcPort := resolveSrcPort cfg.strategy payload
        let dstPort := readBE16 payload (ipHeaderLen + 2)
        let dstIp := destIpOf cfg.destination payload
        let ipHeader := setBytes (ipHeader0Of cfg.destination payload) 10 [0, 0]
        let udpHeader := setBytes ((payload.drop ipHeaderLen).take 8) 6 [0, 0]
        match senderLoop cfg sources ipHeader udpHeader udpPayload ipHeaderLen
          fragments st.id srcPort dstIp dstPort interfaces 0 with
        | none => none
        | some sends =>
          some ⟨{ id := (st.id + 1) % 2 ^ 32,
                  sendTotal := st.sendTotal + 1,
                  sendCurrent := (st.id + 1) % 2 ^ 32,
                  ifacePackets := st.ifacePackets.map (· + 1) }, sends⟩

/-! ## Receiver (`src/receiver.rs`, `listen`)

The per-message body of the receiver loop (lines 48-241).  The `BTreeMap` is
modelled as an association list kept sorted by key; `Instant` values are
`Nat` timestamps supplied with each message (`now` is the clock reading used
for the timeout check and the `last` reset).  Rust panics are `none`. -/

/-- `ReassembledPacket` (`src/receiver.rs` lines 17-25).  `destination` is
`(ipv4 octets, port)`; `msg` holds the original queue message's payload
buffer when the packet was kept for the forward path. -/
structure ReassembledPacket where
  id : Nat
  payload : List Nat
  ipHeaderLength : Nat
  fragments : List (Option (List Nat))
  destination : List Nat × Nat
  completed : Bool
  msg : Option (List Nat)
deriving DecidableEq

/-- Receiver-side state: the ordered buffer, `current`, `last` (timestamp of
last progress), the SNAT source-table ports the receiver has created, and the
statistics counters it writes. -/
structure RecvState where
  packets : List (Nat × ReassembledPacket)
  current : Nat
  last : Nat
  sources : List Nat
  dropped : Nat
  total : Nat
  bytes : Nat
  recvCurrent : Nat
deriving DecidableEq

/-- The receiver configuration fields the loop body reads: the timeout in
milliseconds and the optional SNAT `(ipv4 octets, port)`. -/
structure RecvConfig where
  timeout : Nat
  snat : Option (List Nat × Nat)
deriving DecidableEq

/-- Result of one receiver iteration: the new state, the packets emitted by
the drain loop as `(id, bytes)` (forward `set_payload`+ACCEPT, or the SNAT
raw-socket send), and the verdicts issued directly on the incoming message
as `(is_accept, buffer at verdict time)`. -/
structure RecvStep where
  st : RecvState
  emissions : List (Nat × List Nat)
  verdicts : List (Bool × List Nat)
deriving DecidableEq

/-- `BTreeMap::get`-style lookup in the ordered buffer. -/
def lookupP (packets : List (Nat × ReassembledPacket)) (k : Nat) :
    Option ReassembledPacket :=
  (packets.find? (fun kv => kv.1 == k)).map (fun kv => kv.2)

/-- `btree_map::Entry::Vacant::insert`: ordered insertion of a fresh key. -/
def insertP (k : Nat) (p : ReassembledPacket) :
    List (Nat × ReassembledPacket) → List (Nat × ReassembledPacket)
  | [] => [(k, p)]
  | (k', p') :: rest =>
    if k < k' then (k, p) :: (k', p') :: rest
    else if k = k' then (k, p) :: rest
    else (k', p') :: insertP k p rest

/-- `btree_map::Entry::Occupied` in-place update of the value at `k`. -/
def replaceP (k : Nat) (p : ReassembledPacket) :
    List (Nat × ReassembledPacket) → List (Nat × ReassembledPacket) :=
  List.map (fun kv => if kv.1 = k then (k, p) else kv)

/-- `btree_map::Entry::Occupied::remove`. -/
def removeP (k : Nat) (packets : List (Nat × ReassembledPacket)) :
    List (Nat × ReassembledPacket) :=
  packets.filter (fun kv => kv.1 ≠ k)

/-- `BTreeMap::first_key_value`: the minimum key of the ordered buffer. -/
def minKeyP (packets : List (Nat × ReassembledPacket)) : Option Nat :=
  packets.foldr (fun kv acc =>
    match acc with
    | none => some kv.1
    | some m => some (min kv.1 m)) none

/-- The emission of one drained packet (`src/receiver.rs` lines 215-228):
in SNAT mode, a raw-socket send to the packet's original destination when
the source table has its destination port; in forward mode, `set_payload` of
the reassembled bytes and verdict ACCEPT on the held message. -/
def drainEmit (snat : Option (List Nat × Nat)) (sources : List Nat)
    (p : ReassembledPacket) (payload2 : List Nat) : List (Nat × List Nat) :=
  match snat with
  | some _ => if p.destination.2 ∈ sources then [(p.id, payload2)] else []
  | none =>
    match p.msg with
    | some _ => [(p.id, payload2)]
    | none => []

/-- The `while let` drain loop (`src/receiver.rs` lines 188-236): while the
buffer holds a completed packet at key `current`, reassemble it, patch the
UDP/IP lengths, zero both checksums, emit it (forward `set_payload` +
ACCEPT, or the SNAT raw send when the source table has the destination
port), remove it, and set `current := packet.id` and `last := now`.  `fuel`
is an upper bound on the iterations (each one removes a buffer entry, so
`packets.length + 1` always suffices); `none` models the panics of the
`MutableIpv4Packet/MutableUdpPacket` unwraps on a malformed stored packet. -/
def drainGo (snat : Option (List Nat × Nat)) (sources : List Nat) :
    Nat → List (Nat × ReassembledPacket) → Nat → Nat → Nat →
    Option (List (Nat × ReassembledPacket) × Nat × Nat × List (Nat × List Nat))
  | 0, packets, current, last, _ => some (packets, current, last, [])
  | fuel + 1, packets, current, last, now =>
    match lookupP packets current with
    | none => some (packets, current, last, [])
    | some p =>
      if ¬ p.completed then some (packets, current, last, [])
      else
        let start : List Nat × Nat := (p.payload, p.payload.length - p.ipHeaderLength)
        let reassembled :=
          if p.fragments.length > 1 then
            p.fragments.foldl (fun acc f =>
              match f with
              | some data => (acc.1 ++ data, acc.2 + data.length)
              | none => acc) start
          else start
        let payload1 := reassembled.1
        let udpLen := reassembled.2
        if p.ipHeaderLength > payload1.length then none
        else if p.ipHeaderLength < 20 then none
        else if payload1.length - p.ipHeaderLength < 8 then none
        else
          let payload2 := setBytes (setBytes (setBytes (setBytes payload1
            (p.ipHeaderLength + 4) (be16 (udpLen % 2 ^ 16)))
            2 (be16 ((p.ipHeaderLength + udpLen) % 2 ^ 16)))
            (p.ipHeaderLength + 6) [0, 0]) 10 [0, 0]
          let ems := drainEmit snat sources p payload2
          match drainGo snat sources fuel (removeP current packets) p.id now now with
          | none => none
          | some (packets', current', last', ems') =>
            some (packets', current', last', ems ++ ems')

/-- The trailer word of a message: `Payload::from_bytes` of the copied last
4 bytes of the UDP payload (`src/receiver.rs` lines 78-82). -/
def trailerOf (payload : List Nat) : Nat :=
  Payload.fromBytes (payload.drop (payload.length - 4))

/-- The UDP payload of a received message, excluding the 4 trailer bytes
(`udp_payload`, `src/receiver.rs` line 78). -/
def udpPayloadOf (payload : List Nat) : List Nat :=
  getBytes payload (ipHeaderLenOf payload + 8)
    (payload.length - ipHeaderLenOf payload - 8 - 4)

/-- The SNAT source rewrite of the message buffer (`src/receiver.rs` lines
90-92): source IP and UDP source port become the configured SNAT address. -/
def snatPayload (snat : Option (List Nat × Nat)) (payload : List Nat) : List Nat :=
  match snat with
  | some (sip, sport) =>
    setBytes (setBytes payload 12 sip) (ipHeaderLenOf payload)
      (be16 (sport % 2 ^ 16))
  | none => payload

/-- The receiver-side SNAT source table (tracked as the set of destination
ports for which a `Source` exists, `src/receiver.rs` lines 94-104). -/
def snatSources (snat : Option (List Nat × Nat)) (sources : List Nat)
    (dstPort : Nat) : List Nat :=
  match snat with
  | some _ => if dstPort ∈ sources then sources else sources ++ [dstPort]
  | none => sources

/-- Whether a message passes the receiver's `if let` chain
(`src/receiver.rs` lines 60-83) and reaches the buffering stage: long
enough, IPv4+UDP, in-bounds splits, at least a 4-byte UDP payload tail for
the trailer, and a trailer sequence that is not in the past. -/
def recvAccepts (current : Nat) (payload : List Nat) : Bool :=
  28 ≤ payload.length && payload.getD 9 0 == 17 &&
    4 * (payload.getD 0 0 % 16) + 8 + 4 ≤ payload.length &&
    5 ≤ payload.getD 0 0 % 16 &&
    current ≤ Payload.sequence (trailerOf payload)

/-- The `packets.entry(extra.sequence())` match (`src/receiver.rs` lines
112-169): vacant keys insert a fresh `ReassembledPacket` (holding the
message in forward mode, dropping it in SNAT mode); occupied keys with
`extra.fragments() > 1` fill the fragment slot if it is still empty (the
first observation of a `(sequence, fragment)` wins) and drop the message;
other occupied keys are duplicates and are dropped.  `none` models a
fragment-index panic. -/
def recvBuffer (snat : Option (List Nat × Nat))
    (packets : List (Nat × ReassembledPacket)) (seq frs frg : Nat)
    (udpPayload payload1 : List Nat) (ipHeaderLen : Nat) (dstIp : List Nat)
    (dstPort : Nat) :
    Option (List (Nat × ReassembledPacket) × List (Bool × List Nat)) :=
  match lookupP packets seq with
  | none =>
    let fragments0 : List (Option (List Nat)) := List.replicate frs none
    if frs > 1 then
      if frg ≥ frs then none
      else
        let headerOrPayload := payload1.take ipHeaderLen ++
          (payload1.drop ipHeaderLen).take 8
        some (insertP seq
          ⟨seq, headerOrPayload, ipHeaderLen,
            fragments0.set frg (some udpPayload), (dstIp, dstPort), false,
            if snat.isNone then some payload1 else none⟩ packets,
          if snat.isNone then [] else [(false, payload1)])
    else
      let udpLength := 8 + udpPayload.length
      some (insertP seq
        ⟨seq, payload1.take (ipHeaderLen + udpLength), ipHeaderLen,
          fragments0, (dstIp, dstPort), true,
          if snat.isNone then some payload1 else none⟩ packets,
        if snat.isNone then [] else [(false, payload1)])
  | some p =>
    if frs > 1 then
      if frg ≥ p.fragments.length then none
      else
        let p' :=
          if p.fragments.getD frg none = none then
            let f' := p.fragments.set frg (some udpPayload)
            { p with fragments := f', completed := f'.all (fun f => f.isSome) }
          else p
        some (replaceP seq p' packets, [(false, payload1)])
    else
      some (packets, [(false, payload1)])

/-- `recvBuffer` applied to the components the receiver parses out of a
message that passed the `if let` chain. -/
def recvBufferOf (cfg : RecvConfig) (st : RecvState) (payload : List Nat) :
    Option (List (Nat × ReassembledPacket) × List (Bool × List Nat)) :=
  recvBuffer cfg.snat st.packets (Payload.sequence (trailerOf payload))
    (Payload.fragments (trailerOf payload)) (Payload.fragment (trailerOf payload))
    (udpPayloadOf payload) (snatPayload cfg.snat payload) (ipHeaderLenOf payload)
    (getBytes payload 16 4) (readBE16 payload (ipHeaderLenOf payload + 2))

/-- The timeout rule (`src/receiver.rs` lines 178-186): after the message is
buffered, if the elapsed time since the last progress strictly exceeds the
timeout and the buffer is non-empty, `current` jumps to the buffer's minimum
key and the skip is accounted in `recv_dropped`. -/
def timeoutAdvance (timeout elapsed current dropped : Nat)
    (packets1 : List (Nat × ReassembledPacket)) : Nat × Nat :=
  if elapsed > timeout then
    match minKeyP packets1 with
    | some first => (first, dropped + (first - current))
    | none => (current, dropped)
  else (current, dropped)

/-- One iteration of the receiver loop body on a queue message
(`src/receiver.rs` lines 60-241).  `payload` is the message buffer, `now`
the clock reading of this iteration.  `none` models a Rust panic (the
`udp_full_payload.len() - Payload::len()` slice underflow on 28..31-byte UDP
messages, an out-of-bounds `split_at_mut`, a fragment-index out of bounds,
or a drain-loop unwrap).  Note lines 107-110: `extra_payload` is an owned
`[u8; 4]` copy (see `zeroCopy`), so the zeroing loop does not modify the
message buffer. -/
def receiverStep (cfg : RecvConfig) (st : RecvState) (payload : List Nat)
    (now : Nat) : Option RecvStep :=
  if payload.length < 28 then
    some ⟨{ st with dropped := st.dropped + 1 }, [], [(false, payload)]⟩
  else if payload.getD 9 0 ≠ 17 then
    some ⟨{ st with dropped := st.dropped + 1 }, [], [(false, payload)]⟩
  else
    let ipHeaderLen := ipHeaderLenOf payload
    if ipHeaderLen > payload.length then none
    else if payload.length - ipHeaderLen < 8 then none
    else if payload.length - ipHeaderLen - 8 < 4 then none
    else if ipHeaderLen < 20 then
      some ⟨{ st with dropped := st.dropped + 1 }, [], [(false, payload)]⟩
    else if Payload.sequence (trailerOf payload) < st.current then
      some ⟨{ st with dropped := st.dropped + 1 }, [], [(false, payload)]⟩
    else
      let sources1 := snatSources cfg.snat st.sources
        (readBE16 payload (ipHeaderLen + 2))
      match recvBufferOf cfg st payload with
      | none => none
      | some (packets1, verdicts1) =>
        let advanced := timeoutAdvance cfg.timeout (now - st.last) st.current
          st.dropped packets1
        match drainGo cfg.snat sources1 (packets1.length + 1) packets1
          advanced.1 st.last now with
        | none => none
        | some (packets2, current2, last2, ems) =>
          some ⟨{ packets := packets2, current := current2, last := last2,
                  sources := sources1, dropped := advanced.2,
                  total := st.total + 1, bytes := st.bytes + payload.length,
                  recvCurrent := current2 }, ems, verdicts1⟩

/-- Run the receiver body over a list of `(message payload, clock reading)`
pairs, collecting the emissions in order. -/
def runReceiver (cfg : RecvConfig) (st : RecvState) :
    List (List Nat × Nat) → Option (RecvState × List (Nat × List Nat))
  | [] => some (st, [])
  | (p, t) :: rest =>
    match receiverStep cfg st p t with
    | none => none
    | some r =>
      match runReceiver cfg r.st rest with
      | none => none
      | some (st', ems) => some (st', r.emissions ++ ems)

/-- The initial receiver state (`src/receiver.rs` lines 41-44). -/
def initialRecvState : RecvState :=
  ⟨[], 0, 0, [], 0, 0, 0, 0⟩

/-! ## Whitelist admission server (`src/whitelist.rs`, `server`)

The per-datagram body of the server loop (lines 51-95).  HMAC-SHA256 itself
is environmental: each datagram carries the abstract verification outcome of
its 32-byte tag against the ascii timestamp, as a predicate on timestamps
(`mac.verify_slice(&buf[..amt]).is_ok()` for `current`). -/

/-- The server's mutable state: the single shared `minimum` accepted
timestamp and the list of whitelisted source IPs (IPs as numbers). -/
structure WlState where
  minimum : Nat
  whitelisted : List Nat
deriving DecidableEq

/-- One `recv_from` result: the byte count, the source IP, the HMAC
verification outcome of the received tag per candidate timestamp, and the
server's clock reading `now.as_secs()`. -/
structure Datagram where
  amt : Nat
  srcIp : Nat
  verify : Nat → Bool
  now : Nat

/-- The window loop `for i in 0..WINDOW_SIZE` (`src/whitelist.rs` lines
70-88): try `current = now - i`; on a verified tag with
`current > minimum`, set `minimum := current`, install the ACCEPT rule and
record the IP.  Returns the final state and the accepted
`(timestamp, source ip, datagram)` events in order. -/
def scanGo (d : Datagram) : List Nat → WlState → WlState × List (Nat × Nat × Datagram)
  | [], s => (s, [])
  | i :: is, s =>
    let current := d.now - i
    if d.verify current && decide (current > s.minimum) then
      let s' : WlState := ⟨current, s.whitelisted ++ [d.srcIp]⟩
      let res := scanGo d is s'
      (res.1, (current, d.srcIp, d) :: res.2)
    else scanGo d is s

/-- One datagram of the server loop (`src/whitelist.rs` lines 66-94): only
exactly-32-byte datagrams from not-yet-whitelisted IPs enter the window
scan; everything else is ignored. -/
def wlStep (s : WlState) (d : Datagram) : WlState × List (Nat × Nat × Datagram) :=
  if d.amt = 32 ∧ d.srcIp ∉ s.whitelisted then scanGo d (List.range 60) s
  else (s, [])

/-- Run the server over a sequence of received datagrams, collecting the
accepted events in order. -/
def wlRun (s : WlState) : List Datagram → WlState × List (Nat × Nat × Datagram)
  | [] => (s, [])
  | d :: ds =>
    let r1 := wlStep s d
    let r2 := wlRun r1.1 ds
    (r2.1, r1.2 ++ r2.2)

/-! ## Concrete test vectors

Well-formed IPv4/UDP messages used to evaluate the embedded loop bodies on
concrete inputs: a 20-byte IPv4 header (IHL 5, protocol 17), an 8-byte UDP
header, and a 4-byte trailer. -/

/-- 20-byte IPv4 header: version 4, IHL 5, total length 32, TTL 64,
protocol 17 (UDP), source 10.0.0.1, destination 10.0.0.2. -/
def sampleIpHeader : List Nat :=
  [69, 0, 0, 32, 0, 0, 0, 0, 64, 17, 0, 0, 10, 0, 0, 1, 10, 0, 0, 2]

/-- 8-byte UDP header: source port 4000, destination port 5000, length 12,
checksum 0. -/
def sampleUdpHeader : List Nat := [15, 160, 19, 136, 0, 12, 0, 0]

/-- A 32-byte single-fragment message with trailer `(fragments 1,
sequence S, fragment 0)`, i.e. trailer word `1 + 8*S`. -/
def samplePacket (S : Nat) : List Nat :=
  sampleIpHeader ++ sampleUdpHeader ++ [1 + 8 * S, 0, 0, 0]

/-- A 34-byte message: 2-byte UDP payload `[171, 205]` and trailer
`(fragments 2, sequence 0, fragment 0)` (trailer word 2). -/
def sampleFragPacket : List Nat :=
  [69, 0, 0, 34, 0, 0, 0, 0, 64, 17, 0, 0, 10, 0, 0, 1, 10, 0, 0, 2] ++
    [15, 160, 19, 136, 0, 14, 0, 0] ++ [171, 205] ++ [2, 0, 0, 0]

/-- A 28-byte message: valid IPv4/UDP headers but no room for the trailer.
It passes the receiver's `payload.len() < 28` guard. -/
def sampleUndersized : List Nat := sampleIpHeader ++ sampleUdpHeader

/-- Receiver configuration with the default 100 ms timeout, forward mode. -/
def sampleRecvConfig : RecvConfig := ⟨100, none⟩

/-- A 30-byte egress message for the sender: 2-byte UDP payload. -/
def sampleSenderMsg : List Nat :=
  [69, 0, 0, 30, 0, 0, 0, 0, 64, 17, 0, 0, 10, 0, 0, 1, 10, 0, 0, 2] ++
    [15, 160, 19, 136, 0, 10, 0, 0] ++ [171, 205]

/-- Sender configuration: forward mode, one fragment, threshold 100,
original source port. -/
def sampleSenderConfig : SenderConfig := ⟨false, none, 1, 100, .original⟩

/-- Sender configuration with SNAT enabled. -/
def sampleSnatSenderConfig : SenderConfig := ⟨true, none, 1, 100, .original⟩

/-- A SNAT source: stable address 203.0.113.1:17566, one recorded remote
endpoint 10.0.0.5:40000. -/
def sampleSource : SourceM := ⟨[203, 0, 113, 1], 17566, [([10, 0, 0, 5], 40000)]⟩

/-- The tagged datagram the sender produces from `sampleSenderMsg` on
interface 192.168.0.1 at sequence counter 0 (34 bytes, trailer word 1). -/
def sampleTaggedPacket : List Nat :=
  [69, 0, 0, 34, 0, 0, 0, 0, 64, 17, 0, 0, 192, 168, 0, 1, 10, 0, 0, 2,
    15, 160, 19, 136, 0, 14, 0, 0, 171, 205, 1, 0, 0, 0]

/-- An incomplete buffered packet at sequence 5, for timeout scenarios. -/
def sampleBufferedPacket : ReassembledPacket :=
  ⟨5, [], 20, [], ([10, 0, 0, 2], 5000), false, none⟩

/-- The receiver step result for `samplePacket 5` arriving at the initial
state at time 200 ms (timeout 100 ms): the timeout advance jumps `current`
from 0 to 5, counting 5 drops, and the drained packet is emitted with its
lengths patched to 28. -/
def sampleTimeoutStep : RecvStep :=
  ⟨⟨[], 5, 200, [], 5, 1, 32, 5⟩,
    [(5, [69, 0, 0, 28, 0, 0, 0, 0, 64, 17, 0, 0, 10, 0, 0, 1, 10, 0, 0, 2,
      15, 160, 19, 136, 0, 8, 0, 0])], []⟩

end Unison

namespace Unison

/-! Basic facts about the byte helpers, the trailer and fragmentation,
shared by the claim theorems below. -/

theorem length_setBytes (vals : List Nat) :
    ∀ (l : List Nat) (pos : Nat), (setBytes l pos vals).length = l.length := by
  induction vals with
  | nil => intro l pos; rfl
  | cons v vs ih =>
    intro l pos
    simp only [setBytes, ih, List.length_set]

theorem getElem?_setBytes (vals : List Nat) :
    ∀ (l : List Nat) (pos i : Nat),
      (setBytes l pos vals)[i]? =
        if pos ≤ i ∧ i < pos + vals.length ∧ i < l.length then vals[i - pos]?
        else l[i]? := by
  induction vals with
  | nil =>
    intro l pos i
    simp only [setBytes, List.length_nil]
    rw [if_neg]
    omega
  | cons v vs ih =>
    intro l pos i
    simp only [setBytes]
    rw [ih, List.getElem?_set, List.length_set]
    by_cases h1 : pos + 1 ≤ i ∧ i < pos + 1 + vs.length ∧ i < l.length
    · rw [if_pos h1, if_pos (by simp only [List.length_cons]; omega)]
      have h2 : i - pos = (i - (pos + 1)) + 1 := by omega
      rw [h2]
      simp only [List.getElem?_cons_succ]
    · rw [if_neg h1]
      by_cases h2 : pos = i
      · subst h2
        by_cases h3 : pos < l.length
        · rw [if_pos rfl, if_pos h3, if_pos (by simp only [List.length_cons]; omega)]
          simp
        · rw [if_pos rfl, if_neg h3, if_neg (by simp only [List.length_cons]; omega)]
          symm
          rw [List.getElem?_eq_none_iff]
          omega
      · rw [if_neg h2, if_neg (by simp only [List.length_cons]; omega)]

theorem getElem?_getBytes (l : List Nat) (pos n i : Nat) :
    (getBytes l pos n)[i]? = if i < n then l[pos + i]? else none := by
  simp only [getBytes, List.getElem?_take, List.getElem?_drop]

theorem getBytes_setBytes_self (l vals : List Nat) (pos : Nat)
    (h : pos + vals.length ≤ l.length) :
    getBytes (setBytes l pos vals) pos vals.length = vals := by
  apply List.ext_getElem?
  intro i
  rw [getElem?_getBytes, getElem?_setBytes]
  by_cases hi : i < vals.length
  · rw [if_pos hi, if_pos (by omega)]
    congr 1
    omega
  · rw [if_neg hi]
    symm
    rw [List.getElem?_eq_none_iff]
    omega

theorem getBytes_setBytes_disjoint (l vals : List Nat) (pos q n : Nat)
    (h : q + n ≤ pos ∨ pos + vals.length ≤ q) :
    getBytes (setBytes l pos vals) q n = getBytes l q n := by
  apply List.ext_getElem?
  intro i
  rw [getElem?_getBytes, getElem?_getBytes]
  by_cases hi : i < n
  · rw [if_pos hi, if_pos hi, getElem?_setBytes, if_neg (by omega)]
  · rw [if_neg hi, if_neg hi]

theorem drop_setBytes (l vals : List Nat) (pos n : Nat)
    (h : pos + vals.length ≤ n) :
    (setBytes l pos vals).drop n = l.drop n := by
  apply List.ext_getElem?
  intro i
  rw [List.getElem?_drop, List.getElem?_drop, getElem?_setBytes,
    if_neg (by omega)]

theorem setBytes_append_left (l₁ l₂ vals : List Nat) (pos : Nat)
    (h : pos + vals.length ≤ l₁.length) :
    setBytes (l₁ ++ l₂) pos vals = setBytes l₁ pos vals ++ l₂ := by
  apply List.ext_getElem?
  intro i
  conv_lhs => rw [getElem?_setBytes, List.getElem?_append]
  conv_rhs => rw [List.getElem?_append]
  rw [length_setBytes, getElem?_setBytes]
  simp only [List.length_append]
  split_ifs <;> first | rfl | omega

theorem getBytes_append_left (l₁ l₂ : List Nat) (pos n : Nat)
    (h : pos + n ≤ l₁.length) :
    getBytes (l₁ ++ l₂) pos n = getBytes l₁ pos n := by
  apply List.ext_getElem?
  intro i
  rw [getElem?_getBytes, getElem?_getBytes]
  by_cases hi : i < n
  · rw [if_pos hi, if_pos hi, List.getElem?_append, if_pos (by omega)]
  · rw [if_neg hi, if_neg hi]

theorem buildTrailer_eq (F S i : Nat) (hF : F < 8) (hS : S < 2 ^ 26) (hi : i < 8) :
    buildTrailer S F i = some (F + S * 8 + i * 2 ^ 29) := by
  unfold buildTrailer Payload.new Payload.withSequence Payload.withFragments
    Payload.withFragment
  simp only [hF, hS, hi, if_pos]
  simp only [Option.bind_eq_bind, Option.some_bind]
  norm_num
  omega

theorem fromBytes_intoBytes (v : Nat) (hv : v < 2 ^ 32) :
    Payload.fromBytes (Payload.intoBytes v) = v := by
  simp only [Payload.intoBytes, Payload.fromBytes]
  omega

theorem fragmentSlice_join_take (p : List Nat) (F : Nat) (hF : 1 < F) :
    ∀ k, k ≤ F - 1 →
      ((List.range k).map (fragmentSlice p F)).flatten = p.take (k * (p.length / F)) := by
  intro k
  induction k with
  | zero => simp
  | succ n ih =>
    intro hn
    rw [List.range_succ, List.map_append, List.flatten_append,
      ih (Nat.le_of_succ_le hn)]
    have hne : n ≠ F - 1 := by omega
    simp only [fragmentSlice, List.map_cons, List.map_nil, List.flatten_cons,
      List.flatten_nil, List.append_nil, if_pos hF, if_neg hne]
    rw [← List.take_add]
    ring_nf

theorem fragmentSlice_join (p : List Nat) (F : Nat) (hF : 1 < F) :
    ((List.range F).map (fragmentSlice p F)).flatten = p := by
  have hFsub : F - 1 + 1 = F := by omega
  have hr : List.range F = List.range (F - 1) ++ [F - 1] := by
    conv_lhs => rw [← hFsub]
    rw [List.range_succ]
  rw [hr, List.map_append, List.flatten_append,
    fragmentSlice_join_take p F hF (F - 1) (Nat.le_refl _)]
  simp only [fragmentSlice, List.map_cons, List.map_nil, List.flatten_cons,
    List.flatten_nil, List.append_nil, if_pos hF, eq_self_iff_true, if_true]
  exact List.take_append_drop _ p

theorem fragmentSlice_length_mid (p : List Nat) (F i : Nat) (hF : 1 < F)
    (hi : i < F - 1) :
    (fragmentSlice p F i).length = p.length / F := by
  have hne : i ≠ F - 1 := by omega
  simp only [fragmentSlice, if_pos hF, if_neg hne, List.length_take,
    List.length_drop]
  have hdiv : F * (p.length / F) ≤ p.length := Nat.mul_div_le p.length F
  have hstep : i * (p.length / F) + p.length / F ≤ F * (p.length / F) := by
    have h1 : (i + 1) * (p.length / F) ≤ F * (p.length / F) :=
      Nat.mul_le_mul_right _ (by omega)
    calc i * (p.length / F) + p.length / F
        = (i + 1) * (p.length / F) := by ring
      _ ≤ F * (p.length / F) := h1
  omega

theorem fragmentSlice_length_last (p : List Nat) (F : Nat) (hF : 1 < F) :
    (fragmentSlice p F (F - 1)).length = p.length / F + p.length % F := by
  simp only [fragmentSlice, if_pos hF, eq_self_iff_true, if_true,
    List.length_drop]
  have hmod : F * (p.length / F) + p.length % F = p.length :=
    Nat.div_add_mod p.length F
  have h1 : (F - 1) * (p.length / F) + p.length / F = F * (p.length / F) := by
    have h2 : F - 1 + 1 = F := by omega
    calc (F - 1) * (p.length / F) + p.length / F
        = (F - 1 + 1) * (p.length / F) := by ring
      _ = F * (p.length / F) := by rw [h2]
  have key : p.length = p.length / F + p.length % F + (F - 1) * (p.length / F) := by
    omega
  exact Nat.sub_eq_of_eq_add key

/-! Sender lemmas. -/

theorem buildTrailer_some_inv (seq F i v : Nat)
    (h : buildTrailer seq F i = some v) :
    seq < 2 ^ 26 ∧ F < 8 ∧ i < 8 ∧ v = F + seq * 8 + i * 2 ^ 29 := by
  dsimp only [buildTrailer, Payload.new, Payload.withSequence,
    Payload.withFragments, Payload.withFragment] at h
  by_cases h1 : seq < 2 ^ 26
  · rw [if_pos h1] at h
    simp only [Option.bind_eq_bind, Option.some_bind] at h
    by_cases h2 : F < 8
    · rw [if_pos h2] at h
      simp only [Option.some_bind] at h
      by_cases h3 : i < 8
      · rw [if_pos h3] at h
        refine ⟨h1, h2, h3, ?_⟩
        have hv := (Option.some_inj.mp h).symm
        subst hv
        have hlt : (0 % 8 + seq * 8 + 0 / 2 ^ 29 * 2 ^ 29) / 8 * 8 + F < 2 ^ 29 := by
          omega
        omega
      · rw [if_neg h3] at h
        exact absurd h (by simp)
    · rw [if_neg h2] at h
      simp only [Option.none_bind] at h
      exact absurd h (by simp)
  · rw [if_neg h1] at h
    simp only [Option.bind_eq_bind, Option.none_bind] at h
    exact absurd h (by simp)

theorem intoBytes_length (v : Nat) : (Payload.intoBytes v).length = 4 := rfl

theorem buildFragmentPacket_inv (ipH udpH udpP : List Nat)
    (ihl F frag id : Nat) (pkt : List Nat)
    (h : buildFragmentPacket ipH udpH udpP ihl F frag id = some pkt) :
    ∃ v, buildTrailer id F (frag % F) = some v ∧
      pkt = setBytes (setBytes (ipH ++ udpH) 2
          (be16 ((ihl + fragmentUdpLen udpP.length F frag) % 2 ^ 16)))
          (ihl + 4) (be16 (fragmentUdpLen udpP.length F frag % 2 ^ 16)) ++
        fragmentSlice udpP F frag ++ Payload.intoBytes v := by
  unfold buildFragmentPacket at h
  cases htr : buildTrailer id F (frag % F) with
  | none =>
    rw [htr] at h
    exact absurd h (by simp)
  | some v =>
    rw [htr] at h
    simp only [Option.bind_eq_bind, Option.some_bind, Option.some_inj] at h
    exact ⟨v, rfl, h.symm⟩

theorem suffix4_append (a b : List Nat) (hb : b.length = 4) :
    (a ++ b).drop ((a ++ b).length - 4) = b := by
  rw [List.length_append, hb]
  have harith : a.length + 4 - 4 = a.length := by omega
  rw [harith, List.drop_left]

theorem suffix4_setBytes (pkt vals : List Nat) (pos : Nat)
    (h : pos + vals.length + 4 ≤ pkt.length) :
    (setBytes pkt pos vals).drop ((setBytes pkt pos vals).length - 4) =
      pkt.drop (pkt.length - 4) := by
  rw [length_setBytes, drop_setBytes]
  omega

theorem senderLoop_trailer (cfg : SenderConfig) (sources : List (Nat × SourceM))
    (ipH udpH udpP : List Nat) (ihl F id srcPort : Nat) (dstIp : List Nat)
    (dstPort : Nat)
    (hihl : ipH.length = ihl) (hudp : udpH.length = 8) (h20 : 20 ≤ ihl)
    (hsrc : ∀ kv ∈ sources, kv.2.ip.length = 4 ∧
      ∀ ep ∈ kv.2.addrs, ep.1.length = 4) :
    ∀ (interfaces : List (List Nat)) (j : Nat) (sends : List SendRec),
      (∀ ifc ∈ interfaces, ifc.length = 4) →
      senderLoop cfg sources ipH udpH udpP ihl F id srcPort dstIp dstPort
        interfaces j = some sends →
      ∀ s ∈ sends, ∃ frag v, buildTrailer id F frag = some v ∧
        s.packet.drop (s.packet.length - 4) = Payload.intoBytes v ∧
        Payload.sequence v = id % 2 ^ 26 := by
  intro interfaces
  induction interfaces with
  | nil =>
    intro j sends _ hloop s hs
    simp only [senderLoop, Option.some_inj] at hloop
    subst hloop
    exact absurd hs (List.not_mem_nil s)
  | cons ifc rest ih =>
    intro j sends hlen hloop s hs
    simp only [senderLoop, Option.bind_eq_bind] at hloop
    cases hpkt : buildFragmentPacket ipH udpH udpP ihl F (j % F) id with
    | none =>
      rw [hpkt] at hloop
      exact absurd hloop (by simp)
    | some pkt =>
      rw [hpkt] at hloop
      simp only [Option.some_bind] at hloop
      cases hrest : senderLoop cfg sources ipH udpH udpP ihl F id srcPort dstIp
        dstPort rest (j + 1) with
      | none =>
        rw [hrest] at hloop
        exact absurd hloop (by simp)
      | some rs =>
        rw [hrest] at hloop
        simp only [Option.some_bind, Option.some_inj] at hloop
        subst hloop
        obtain ⟨v, htr, hpkteq⟩ := buildFragmentPacket_inv _ _ _ _ _ _ _ _ hpkt
        obtain ⟨hid26, hF8, hfrag8, hveq⟩ := buildTrailer_some_inv _ _ _ _ htr
        have hseq : Payload.sequence v = id % 2 ^ 26 := by
          subst hveq
          simp only [Payload.sequence]
          omega
        have hpktlen : pkt.length = ihl + 8 +
            (fragmentSlice udpP F (j % F)).length + 4 := by
          subst hpkteq
          simp only [List.length_append, length_setBytes, intoBytes_length,
            hihl, hudp]
        have hpktsuffix : pkt.drop (pkt.length - 4) = Payload.intoBytes v := by
          subst hpkteq
          exact suffix4_append _ _ (intoBytes_length v)
        rcases List.mem_append.mp hs with hhere | hrest'
        · by_cases hsnat : cfg.snat = true
          · rw [if_pos hsnat] at hhere
            cases hfind : lookupSrc sources srcPort with
            | none =>
              rw [hfind] at hhere
              exact absurd hhere (List.not_mem_nil s)
            | some source =>
              rw [hfind] at hhere
              obtain ⟨ep, hep, hsrec⟩ := List.mem_map.mp hhere
              have hsource_mem : ∃ kv ∈ sources, kv.2 = source := by
                unfold lookupSrc at hfind
                cases hf : sources.find? (fun kv => kv.1 == srcPort) with
                | none => rw [hf] at hfind; exact absurd hfind (by simp)
                | some kv =>
                  rw [hf] at hfind
                  simp only [Option.map_some', Option.some_inj] at hfind
                  exact ⟨kv, List.mem_of_find?_eq_some hf, hfind⟩
              obtain ⟨kv, hkv, hkveq⟩ := hsource_mem
              obtain ⟨hsip, hseps⟩ := hsrc kv hkv
              have hiplen : source.ip.length = 4 := by rw [← hkveq]; exact hsip
              have heplen : ep.1.length = 4 := by
                rw [← hkveq] at hep
                exact hseps ep hep
              refine ⟨j % F % F, v, htr, ?_, hseq⟩
              rw [← hsrec]
              dsimp only [snatPatch]
              rw [suffix4_setBytes _ _ _ (by
                simp only [length_setBytes, be16, List.length_cons,
                  List.length_nil, hpktlen]
                omega)]
              rw [suffix4_setBytes _ _ _ (by
                simp only [length_setBytes, hpktlen, heplen]
                omega)]
              rw [suffix4_setBytes _ _ _ (by
                simp only [length_setBytes, be16, List.length_cons,
                  List.length_nil, hpktlen]
                omega)]
              rw [suffix4_setBytes _ _ _ (by
                simp only [hpktlen, hiplen]
                omega)]
              exact hpktsuffix
          · rw [if_neg hsnat] at hhere
            rcases List.mem_cons.mp hhere with hsrec | hnil
            · refine ⟨j % F % F, v, htr, ?_, hseq⟩
              subst hsrec
              dsimp only
              rw [suffix4_setBytes _ _ _ (by
                simp only [length_setBytes, be16, List.length_cons,
                  List.length_nil, hpktlen]
                omega)]
              rw [suffix4_setBytes _ _ _ (by
                simp only [hpktlen, hlen ifc (List.mem_cons_self ifc rest)]
                omega)]
              exact hpktsuffix
            · exact absurd hnil (List.not_mem_nil s)
        · exact ih (j + 1) rs
            (fun i hi => hlen i (List.mem_cons_of_mem ifc hi)) hrest s hrest'

theorem readBE16_setBytes_be16 (l : List Nat) (pos v : Nat)
    (h : pos + 2 ≤ l.length) :
    readBE16 (setBytes l pos (be16 v)) pos = v % 2 ^ 16 := by
  unfold readBE16
  rw [getElem?_setBytes, getElem?_setBytes]
  simp only [be16, List.length_cons, List.length_nil]
  rw [if_pos (by omega), if_pos (by omega)]
  have h0 : pos - pos = 0 := by omega
  have h1 : pos + 1 - pos = 1 := by omega
  rw [h0, h1]
  simp only [List.getElem?_cons_zero, List.getElem?_cons_succ,
    Option.getD_some]
  omega

theorem readBE16_setBytes_disjoint (l vals : List Nat) (pos q : Nat)
    (h : q + 2 ≤ pos ∨ pos + vals.length ≤ q) :
    readBE16 (setBytes l pos vals) q = readBE16 l q := by
  unfold readBE16
  rw [getElem?_setBytes, getElem?_setBytes, if_neg (by omega),
    if_neg (by omega)]

theorem snatPatch_fields (pkt : List Nat) (ihl : Nat) (src : SourceM)
    (ep : List Nat × Nat) (h20 : 20 ≤ ihl) (hlen : ihl + 8 ≤ pkt.length)
    (hip : src.ip.length = 4) (hep : ep.1.length = 4) :
    getBytes (snatPatch pkt ihl src ep) 12 4 = src.ip ∧
    readBE16 (snatPatch pkt ihl src ep) ihl = src.port % 2 ^ 16 ∧
    getBytes (snatPatch pkt ihl src ep) 16 4 = ep.1 ∧
    readBE16 (snatPatch pkt ihl src ep) (ihl + 2) = ep.2 % 2 ^ 16 := by
  have hbe : ∀ v : Nat, (be16 v).length = 2 := fun _ => rfl
  have hL1 : (setBytes pkt 12 src.ip).length = pkt.length := length_setBytes _ _ _
  have hL2 : (setBytes (setBytes pkt 12 src.ip) ihl
      (be16 (src.port % 2 ^ 16))).length = pkt.length := by
    rw [length_setBytes, hL1]
  have hL3 : (setBytes (setBytes (setBytes pkt 12 src.ip) ihl
      (be16 (src.port % 2 ^ 16))) 16 ep.1).length = pkt.length := by
    rw [length_setBytes, hL2]
  unfold snatPatch
  refine ⟨?_, ?_, ?_, ?_⟩
  · rw [getBytes_setBytes_disjoint
        (setBytes (setBytes (setBytes pkt 12 src.ip) ihl
          (be16 (src.port % 2 ^ 16))) 16 ep.1)
        (be16 (ep.2 % 2 ^ 16)) (ihl + 2) 12 4 (Or.inl (by omega)),
      getBytes_setBytes_disjoint
        (setBytes (setBytes pkt 12 src.ip) ihl (be16 (src.port % 2 ^ 16)))
        ep.1 16 12 4 (Or.inl (by omega)),
      getBytes_setBytes_disjoint (setBytes pkt 12 src.ip)
        (be16 (src.port % 2 ^ 16)) ihl 12 4 (Or.inl (by omega))]
    have hself := getBytes_setBytes_self pkt src.ip 12 (by omega)
    rw [hip] at hself
    exact hself
  · rw [readBE16_setBytes_disjoint
        (setBytes (setBytes (setBytes pkt 12 src.ip) ihl
          (be16 (src.port % 2 ^ 16))) 16 ep.1)
        (be16 (ep.2 % 2 ^ 16)) (ihl + 2) ihl (Or.inl (by omega)),
      readBE16_setBytes_disjoint
        (setBytes (setBytes pkt 12 src.ip) ihl (be16 (src.port % 2 ^ 16)))
        ep.1 16 ihl (Or.inr (by rw [hep]; omega))]
    exact (readBE16_setBytes_be16 (setBytes pkt 12 src.ip) ihl
      (src.port % 2 ^ 16) (by rw [hL1]; omega)).trans (by omega)
  · rw [getBytes_setBytes_disjoint
        (setBytes (setBytes (setBytes pkt 12 src.ip) ihl
          (be16 (src.port % 2 ^ 16))) 16 ep.1)
        (be16 (ep.2 % 2 ^ 16)) (ihl + 2) 16 4 (Or.inl (by omega))]
    have hself := getBytes_setBytes_self
      (setBytes (setBytes pkt 12 src.ip) ihl (be16 (src.port % 2 ^ 16)))
      ep.1 16 (by rw [hep, hL2]; omega)
    rw [hep] at hself
    exact hself
  · exact (readBE16_setBytes_be16
      (setBytes (setBytes (setBytes pkt 12 src.ip) ihl
        (be16 (src.port % 2 ^ 16))) 16 ep.1)
      (ihl + 2) (ep.2 % 2 ^ 16) (by rw [hL3]; omega)).trans (by omega)

theorem senderLoop_snat (cfg : SenderConfig) (sources : List (Nat × SourceM))
    (ipH udpH udpP : List Nat) (ihl F id srcPort : Nat) (dstIp : List Nat)
    (dstPort : Nat) (hsnat : cfg.snat = true)
    (hihl : ipH.length = ihl) (hudp : udpH.length = 8) (h20 : 20 ≤ ihl) :
    ∀ (interfaces : List (List Nat)) (j : Nat) (sends : List SendRec),
      senderLoop cfg sources ipH udpH udpP ihl F id srcPort dstIp dstPort
        interfaces j = some sends →
      (lookupSrc sources srcPort = none → sends = []) ∧
      (∀ source, lookupSrc sources srcPort = some source →
        source.ip.length = 4 → (∀ ep ∈ source.addrs, ep.1.length = 4) →
        sends.length = interfaces.length * source.addrs.length ∧
        ∀ s ∈ sends, s.dest ∈ source.addrs ∧
          getBytes s.packet 12 4 = source.ip ∧
          readBE16 s.packet ihl = source.port % 2 ^ 16 ∧
          getBytes s.packet 16 4 = s.dest.1 ∧
          readBE16 s.packet (ihl + 2) = s.dest.2 % 2 ^ 16) := by
  intro interfaces
  induction interfaces with
  | nil =>
    intro j sends hloop
    simp only [senderLoop, Option.some_inj] at hloop
    subst hloop
    refine ⟨fun _ => rfl, fun source _ _ _ => ⟨by simp, fun s hs => ?_⟩⟩
    exact absurd hs (List.not_mem_nil s)
  | cons ifc rest ih =>
    intro j sends hloop
    simp only [senderLoop, Option.bind_eq_bind] at hloop
    cases hpkt : buildFragmentPacket ipH udpH udpP ihl F (j % F) id with
    | none =>
      rw [hpkt] at hloop
      exact absurd hloop (by simp)
    | some pkt =>
      rw [hpkt] at hloop
      simp only [Option.some_bind] at hloop
      cases hrest : senderLoop cfg sources ipH udpH udpP ihl F id srcPort dstIp
        dstPort rest (j + 1) with
      | none =>
        rw [hrest] at hloop
        exact absurd hloop (by simp)
      | some rs =>
        rw [hrest] at hloop
        simp only [Option.some_bind, Option.some_inj] at hloop
        subst hloop
        obtain ⟨v, htr, hpkteq⟩ := buildFragmentPacket_inv _ _ _ _ _ _ _ _ hpkt
        have hpktlen : pkt.length = ihl + 8 +
            (fragmentSlice udpP F (j % F)).length + 4 := by
          subst hpkteq
          simp only [List.length_append, length_setBytes, intoBytes_length,
            hihl, hudp]
        obtain ⟨ihnone, ihsome⟩ := ih (j + 1) rs hrest
        constructor
        · intro hnone
          rw [if_pos hsnat, hnone, ihnone hnone]
          rfl
        · intro source hsome hiplen heplens
          rw [if_pos hsnat, hsome]
          dsimp only
          obtain ⟨ihlen, ihall⟩ := ihsome source hsome hiplen heplens
          constructor
          · simp only [List.length_append, List.length_map, ihlen,
              List.length_cons]
            ring
          · intro s hs
            rcases List.mem_append.mp hs with hhere | htail
            · obtain ⟨ep, hep, hsrec⟩ := List.mem_map.mp hhere
              obtain ⟨f1, f2, f3, f4⟩ := snatPatch_fields pkt ihl source ep h20
                (by omega) hiplen (heplens ep hep)
              refine ⟨?_, ?_, ?_, ?_, ?_⟩ <;> rw [← hsrec]
              · exact hep
              · exact f1
              · exact f2
              · exact f3
              · exact f4
            · exact ihall s htail

theorem senderStep_accept_inv (cfg : SenderConfig)
    (interfaces : List (List Nat)) (sources : List (Nat × SourceM))
    (st : SenderState) (payload : List Nat) (r : SenderStep)
    (hacc : senderAccepts payload = true)
    (hstep : senderStep cfg interfaces sources st payload = some r) :
    r.st.id = (st.id + 1) % 2 ^ 32 ∧ r.st.sendTotal = st.sendTotal + 1 ∧
    r.st.sendCurrent = (st.id + 1) % 2 ^ 32 ∧
    r.st.ifacePackets = st.ifacePackets.map (· + 1) ∧
    senderLoop cfg sources
      (setBytes (ipHeader0Of cfg.destination payload) 10 [0, 0])
      (setBytes ((payload.drop (ipHeaderLenOf payload)).take 8) 6 [0, 0])
      ((payload.drop (ipHeaderLenOf payload)).drop 8)
      (ipHeaderLenOf payload)
      (computeFragments ((payload.drop (ipHeaderLenOf payload)).drop 8).length
        cfg.fragmentThreshold cfg.fragments interfaces.length)
      st.id (resolveSrcPort cfg.strategy payload)
      (destIpOf cfg.destination payload)
      (readBE16 payload (ipHeaderLenOf payload + 2)) interfaces 0 =
      some r.sends := by
  simp only [senderAccepts, Bool.and_eq_true, decide_eq_true_eq,
    beq_iff_eq] at hacc
  obtain ⟨⟨⟨hl20, hp17⟩, hbnd⟩, h5⟩ := hacc
  have hihl_le : ¬ (ipHeaderLenOf payload > payload.length) := by
    simp only [ipHeaderLenOf]; omega
  have h8 : ¬ (payload.length - ipHeaderLenOf payload < 8) := by
    simp only [ipHeaderLenOf]; omega
  have h20' : ¬ (ipHeaderLenOf payload < 20) := by
    simp only [ipHeaderLenOf]; omega
  simp only [senderStep] at hstep
  rw [if_neg (by omega : ¬ payload.length < 20),
    if_neg (by omega : ¬ payload.getD 9 0 ≠ 17), if_neg hihl_le, if_neg h8,
    if_neg h20'] at hstep
  by_cases hf0 : computeFragments
      ((payload.drop (ipHeaderLenOf payload)).drop 8).length
      cfg.fragmentThreshold cfg.fragments interfaces.length = 0
  · rw [if_pos hf0] at hstep
    exact absurd hstep (by simp)
  · rw [if_neg hf0] at hstep
    cases hloop : senderLoop cfg sources
        (setBytes (ipHeader0Of cfg.destination payload) 10 [0, 0])
        (setBytes ((payload.drop (ipHeaderLenOf payload)).take 8) 6 [0, 0])
        ((payload.drop (ipHeaderLenOf payload)).drop 8)
        (ipHeaderLenOf payload)
        (computeFragments ((payload.drop (ipHeaderLenOf payload)).drop 8).length
          cfg.fragmentThreshold cfg.fragments interfaces.length)
        st.id (resolveSrcPort cfg.strategy payload)
        (destIpOf cfg.destination payload)
        (readBE16 payload (ipHeaderLenOf payload + 2)) interfaces 0 with
    | none =>
      rw [hloop] at hstep
      exact absurd hstep (by simp)
    | some sends =>
      rw [hloop] at hstep
      simp only [Option.some_inj] at hstep
      subst hstep
      exact ⟨rfl, rfl, rfl, rfl, rfl⟩

/-! Whitelist lemmas. -/

theorem getLastD_append_pair (ys : List Nat) :
    ∀ (xs : List Nat) (m : Nat), (xs ++ ys).getLastD m = ys.getLastD (xs.getLastD m) := by
  intro xs
  induction xs with
  | nil => intro m; rfl
  | cons x xs' ih =>
    intro m
    rw [List.cons_append, List.getLastD_cons, List.getLastD_cons, ih]

theorem chain_lt_glue (ys : List Nat) :
    ∀ (xs : List Nat) (m : Nat), List.Chain' (· < ·) (m :: xs) →
      List.Chain' (· < ·) (xs.getLastD m :: ys) →
      List.Chain' (· < ·) (m :: xs ++ ys) := by
  intro xs
  induction xs with
  | nil => intro m _ h2; exact h2
  | cons x xs' ih =>
    intro m h1 h2
    rw [List.getLastD_cons] at h2
    rw [List.chain'_cons] at h1
    exact List.chain'_cons.mpr ⟨h1.1, ih x h1.2 h2⟩

theorem scanGo_spec (d : Datagram) :
    ∀ (is : List Nat) (s : WlState),
      List.Chain' (· < ·) (s.minimum :: ((scanGo d is s).2.map (fun e => e.1))) ∧
      (scanGo d is s).1.minimum =
        ((scanGo d is s).2.map (fun e => e.1)).getLastD s.minimum ∧
      ∀ e ∈ (scanGo d is s).2, e.2.2 = d ∧ d.verify e.1 = true ∧
        ∃ i ∈ is, e.1 = d.now - i := by
  intro is
  induction is with
  | nil =>
    intro s
    refine ⟨List.chain'_singleton _, rfl, ?_⟩
    intro e he
    simp only [scanGo, List.not_mem_nil] at he
  | cons i is' ih =>
    intro s
    by_cases hc : (d.verify (d.now - i) && decide (d.now - i > s.minimum)) = true
    · have hstep : scanGo d (i :: is') s =
        ((scanGo d is' ⟨d.now - i, s.whitelisted ++ [d.srcIp]⟩).1,
          (d.now - i, d.srcIp, d) ::
            (scanGo d is' ⟨d.now - i, s.whitelisted ++ [d.srcIp]⟩).2) := by
        simp only [scanGo, hc, if_true]
      have hc' := hc
      rw [Bool.and_eq_true] at hc'
      obtain ⟨hver, hgt⟩ := hc'
      have hgt' : s.minimum < d.now - i := of_decide_eq_true hgt
      obtain ⟨ihchain, ihmin, ihall⟩ := ih ⟨d.now - i, s.whitelisted ++ [d.srcIp]⟩
      rw [hstep]
      refine ⟨?_, ?_, ?_⟩
      · simp only [List.map_cons]
        rw [List.chain'_cons]
        exact ⟨hgt', ihchain⟩
      · simp only [List.map_cons, List.getLastD_cons]
        exact ihmin
      · intro e he
        rcases List.mem_cons.mp he with he | he
        · subst he
          exact ⟨rfl, hver, i, List.mem_cons_self i is', rfl⟩
        · obtain ⟨h1, h2, j, hj, h3⟩ := ihall e he
          exact ⟨h1, h2, j, List.mem_cons_of_mem i hj, h3⟩
    · have hstep : scanGo d (i :: is') s = scanGo d is' s := by
        simp only [scanGo]
        rw [if_neg hc]
      obtain ⟨ihchain, ihmin, ihall⟩ := ih s
      rw [hstep]
      refine ⟨ihchain, ihmin, ?_⟩
      intro e he
      obtain ⟨h1, h2, j, hj, h3⟩ := ihall e he
      exact ⟨h1, h2, j, List.mem_cons_of_mem i hj, h3⟩

theorem wlStep_spec (s : WlState) (d : Datagram) :
    List.Chain' (· < ·) (s.minimum :: ((wlStep s d).2.map (fun e => e.1))) ∧
    (wlStep s d).1.minimum =
      ((wlStep s d).2.map (fun e => e.1)).getLastD s.minimum ∧
    ∀ e ∈ (wlStep s d).2, e.2.2 = d ∧ d.amt = 32 ∧ d.verify e.1 = true ∧
      ∃ i, i < 60 ∧ e.1 = d.now - i := by
  unfold wlStep
  by_cases hg : d.amt = 32 ∧ d.srcIp ∉ s.whitelisted
  · rw [if_pos hg]
    obtain ⟨hchain, hmin, hall⟩ := scanGo_spec d (List.range 60) s
    refine ⟨hchain, hmin, ?_⟩
    intro e he
    obtain ⟨h1, h2, j, hj, h3⟩ := hall e he
    exact ⟨h1, hg.1, h2, j, List.mem_range.mp hj, h3⟩
  · rw [if_neg hg]
    refine ⟨List.chain'_singleton _, rfl, ?_⟩
    intro e he
    simp only [List.not_mem_nil] at he

theorem wlRun_spec : ∀ (ds : List Datagram) (s : WlState),
    List.Chain' (· < ·) (s.minimum :: ((wlRun s ds).2.map (fun e => e.1))) ∧
    (wlRun s ds).1.minimum =
      ((wlRun s ds).2.map (fun e => e.1)).getLastD s.minimum ∧
    ∀ e ∈ (wlRun s ds).2, e.2.2 ∈ ds ∧ e.2.2.amt = 32 ∧
      e.2.2.verify e.1 = true ∧ ∃ i, i < 60 ∧ e.1 = e.2.2.now - i := by
  intro ds
  induction ds with
  | nil =>
    intro s
    refine ⟨List.chain'_singleton _, rfl, ?_⟩
    intro e he
    simp only [wlRun, List.not_mem_nil] at he
  | cons d ds' ih =>
    intro s
    obtain ⟨schain, smin, sall⟩ := wlStep_spec s d
    obtain ⟨rchain, rmin, rall⟩ := ih (wlStep s d).1
    have hrun : wlRun s (d :: ds') =
        ((wlRun (wlStep s d).1 ds').1,
          (wlStep s d).2 ++ (wlRun (wlStep s d).1 ds').2) := rfl
    rw [hrun]
    refine ⟨?_, ?_, ?_⟩
    · simp only [List.map_append]
      exact chain_lt_glue _ _ _ schain (smin ▸ rchain)
    · simp only [List.map_append]
      rw [getLastD_append_pair, ← smin]
      exact rmin
    · intro e he
      rcases List.mem_append.mp he with he | he
      · obtain ⟨h1, h2, h3, h4⟩ := sall e he
        refine ⟨?_, ?_, ?_, ?_⟩
        · rw [h1]; exact List.mem_cons_self d ds'
        · rw [h1]; exact h2
        · rw [h1]; exact h3
        · rw [h1]; exact h4
      · obtain ⟨h1, h2, h3, h4⟩ := rall e he
        exact ⟨List.mem_cons_of_mem d h1, h2, h3, h4⟩

/-! Receiver lemmas. -/

theorem lookupP_mem (packets : List (Nat × ReassembledPacket)) (k : Nat)
    (p : ReassembledPacket) (h : lookupP packets k = some p) :
    ∃ kv ∈ packets, kv.1 = k ∧ kv.2 = p := by
  unfold lookupP at h
  cases hf : packets.find? (fun kv => kv.1 == k) with
  | none => rw [hf] at h; exact absurd h (by simp)
  | some kv =>
    rw [hf] at h
    simp only [Option.map_some', Option.some_inj] at h
    have hpred := List.find?_some hf
    simp only [beq_iff_eq] at hpred
    exact ⟨kv, List.mem_of_find?_eq_some hf, hpred, h⟩

theorem lookupP_ne_nil (packets : List (Nat × ReassembledPacket)) (k : Nat)
    (p : ReassembledPacket) (h : lookupP packets k = some p) : packets ≠ [] := by
  intro hnil
  subst hnil
  exact absurd h (by simp [lookupP])

theorem mem_insertP (k : Nat) (p : ReassembledPacket) :
    ∀ (l : List (Nat × ReassembledPacket)) (kv : Nat × ReassembledPacket),
      kv ∈ insertP k p l → kv = (k, p) ∨ kv ∈ l := by
  intro l
  induction l with
  | nil =>
    intro kv h
    simp only [insertP] at h
    exact Or.inl (List.mem_singleton.mp h)
  | cons hd tl ih =>
    intro kv h
    simp only [insertP] at h
    by_cases h1 : k < hd.1
    · rw [if_pos h1] at h
      rcases List.mem_cons.mp h with h | h
      · exact Or.inl h
      · exact Or.inr h
    · rw [if_neg h1] at h
      by_cases h2 : k = hd.1
      · rw [if_pos h2] at h
        rcases List.mem_cons.mp h with h | h
        · exact Or.inl h
        · exact Or.inr (List.mem_cons_of_mem hd h)
      · rw [if_neg h2] at h
        rcases List.mem_cons.mp h with h | h
        · exact Or.inr (h ▸ List.mem_cons_self hd tl)
        · rcases ih kv h with h | h
          · exact Or.inl h
          · exact Or.inr (List.mem_cons_of_mem hd h)

theorem insertP_ne_nil (k : Nat) (p : ReassembledPacket) :
    ∀ (l : List (Nat × ReassembledPacket)), insertP k p l ≠ [] := by
  intro l
  cases l with
  | nil => simp [insertP]
  | cons hd tl =>
    simp only [insertP]
    split_ifs <;> simp

theorem minKeyP_of_ne_nil (l : List (Nat × ReassembledPacket)) (h : l ≠ []) :
    ∃ m, minKeyP l = some m := by
  cases l with
  | nil => exact absurd rfl h
  | cons hd tl =>
    simp only [minKeyP, List.foldr_cons]
    cases (tl.foldr (fun kv acc =>
      match acc with
      | none => some kv.1
      | some m => some (min kv.1 m)) none) with
    | none => exact ⟨hd.1, rfl⟩
    | some m => exact ⟨min hd.1 m, rfl⟩

theorem recvBuffer_inv (snat : Option (List Nat × Nat))
    (packets : List (Nat × ReassembledPacket)) (seq frs frg : Nat)
    (udpPayload payload1 : List Nat) (ipHeaderLen : Nat) (dstIp : List Nat)
    (dstPort : Nat)
    (res : List (Nat × ReassembledPacket) × List (Bool × List Nat))
    (hinv : ∀ kv ∈ packets, kv.2.id = kv.1)
    (h : recvBuffer snat packets seq frs frg udpPayload payload1 ipHeaderLen
      dstIp dstPort = some res) :
    (∀ kv ∈ res.1, kv.2.id = kv.1) ∧ res.1 ≠ [] := by
  unfold recvBuffer at h
  cases hlk : lookupP packets seq with
  | none =>
    simp only [hlk] at h
    by_cases hfrs : frs > 1
    · rw [if_pos hfrs] at h
      by_cases hfrg : frg ≥ frs
      · rw [if_pos hfrg] at h
        exact absurd h (by simp)
      · rw [if_neg hfrg] at h
        simp only [Option.some_inj] at h
        rw [← h]
        refine ⟨?_, insertP_ne_nil _ _ _⟩
        intro kv hkv
        rcases mem_insertP _ _ _ kv hkv with hkv | hkv
        · rw [hkv]
        · exact hinv kv hkv
    · rw [if_neg hfrs] at h
      simp only [Option.some_inj] at h
      rw [← h]
      refine ⟨?_, insertP_ne_nil _ _ _⟩
      intro kv hkv
      rcases mem_insertP _ _ _ kv hkv with hkv | hkv
      · rw [hkv]
      · exact hinv kv hkv
  | some p =>
    simp only [hlk] at h
    obtain ⟨kv0, hkv0, hk0, hp0⟩ := lookupP_mem packets seq p hlk
    have hpid : p.id = seq := by
      rw [← hp0, hinv kv0 hkv0, hk0]
    by_cases hfrs : frs > 1
    · rw [if_pos hfrs] at h
      by_cases hfrg : frg ≥ p.fragments.length
      · rw [if_pos hfrg] at h
        exact absurd h (by simp)
      · rw [if_neg hfrg] at h
        simp only [Option.some_inj] at h
        rw [← h]
        constructor
        · intro kv hkv
          simp only [replaceP] at hkv
          obtain ⟨kv1, hkv1, hmap⟩ := List.mem_map.mp hkv
          by_cases hk : kv1.1 = seq
          · rw [if_pos hk] at hmap
            rw [← hmap]
            by_cases hslot : p.fragments.getD frg none = none
            · simp only [if_pos hslot]
              exact hpid
            · simp only [if_neg hslot]
              exact hpid
          · rw [if_neg hk] at hmap
            rw [← hmap]
            exact hinv kv1 hkv1
        · have hne := lookupP_ne_nil packets seq p hlk
          simp only [replaceP]
          intro hmap
          exact hne (List.map_eq_nil_iff.mp hmap)
    · rw [if_neg hfrs] at h
      simp only [Option.some_inj] at h
      rw [← h]
      exact ⟨hinv, lookupP_ne_nil packets seq p hlk⟩

theorem drainGo_current (snat : Option (List Nat × Nat)) (sources : List Nat) :
    ∀ (fuel : Nat) (packets : List (Nat × ReassembledPacket))
      (current last now : Nat)
      (res : List (Nat × ReassembledPacket) × Nat × Nat × List (Nat × List Nat)),
      (∀ kv ∈ packets, kv.2.id = kv.1) →
      drainGo snat sources fuel packets current last now = some res →
      res.2.1 = current := by
  intro fuel
  induction fuel with
  | zero =>
    intro packets current last now res _ h
    simp only [drainGo, Option.some_inj] at h
    rw [← h]
  | succ fuel ih =>
    intro packets current last now res hinv h
    simp only [drainGo] at h
    cases hlk : lookupP packets current with
    | none =>
      simp only [hlk, Option.some_inj] at h
      rw [← h]
    | some p =>
      simp only [hlk] at h
      obtain ⟨kv0, hkv0, hk0, hp0⟩ := lookupP_mem packets current p hlk
      have hpid : p.id = current := by
        rw [← hp0, hinv kv0 hkv0, hk0]
      by_cases hcomp : p.completed = true
      · rw [if_neg (not_not_intro hcomp)] at h
        repeat' split at h
        all_goals try exact Option.noConfusion h
        all_goals (
          rename_i packets' current' last' ems' heq
          simp only [Option.some_inj] at h
          rw [← h]
          exact ((ih (removeP current packets) p.id now now
            (packets', current', last', ems')
            (fun kv hkv => hinv kv (List.mem_of_mem_filter hkv)) heq).trans
            hpid))
      · rw [if_pos hcomp] at h
        simp only [Option.some_inj] at h
        rw [← h]

/-! ## Claim theorems -/

/-- C8 — Whitelist admission monotonicity: over any run of the admission
server, every accepted event comes from a 32-byte datagram whose tag
verified against a timestamp in the window `{now, …, now-59}`, and the
sequence of accepted timestamps is strictly increasing starting strictly
above the server's initial `minimum` — so a replayed old tag is rejected
even from a new source IP. -/
theorem whitelist_monotone_admission (s : WlState) (ds : List Datagram) :
    List.Chain' (· < ·) (s.minimum :: ((wlRun s ds).2.map (fun e => e.1))) ∧
    ∀ e ∈ (wlRun s ds).2, e.2.2 ∈ ds ∧ e.2.2.amt = 32 ∧
      e.2.2.verify e.1 = true ∧ e.1 ≤ e.2.2.now ∧ e.2.2.now ≤ e.1 + 59 := by
  obtain ⟨hchain, _, hall⟩ := wlRun_spec ds s
  refine ⟨hchain, ?_⟩
  intro e he
  obtain ⟨h1, h2, h3, i, hi, hts⟩ := hall e he
  refine ⟨h1, h2, h3, ?_, ?_⟩
  · omega
  · omega

/-- C6 — Trailer round-trip: for all `F ∈ [1,7]`, `S ∈ [0, 2^26)`,
`i ∈ [0, F)`, encoding the trailer as the sender does (`Payload::new()`
setter chain, then `into_bytes` appended to the datagram) and decoding it as
the receiver does (`from_bytes` of the last 4 bytes, then the field getters)
recovers exactly `(F, S, i)`. -/
theorem trailer_roundtrip (F S i : Nat) (msg : List Nat)
    (hF1 : 1 ≤ F) (hF7 : F ≤ 7) (hS : S < 2 ^ 26) (hi : i < F) :
    ∃ v, buildTrailer S F i = some v ∧
      Payload.fromBytes (Payload.intoBytes v) = v ∧
      Payload.fragments v = F ∧ Payload.sequence v = S ∧
      Payload.fragment v = i ∧
      trailerOf (msg ++ Payload.intoBytes v) = v := by
  have hbt := buildTrailer_eq F S i (by omega) hS (by omega)
  refine ⟨F + S * 8 + i * 2 ^ 29, hbt, ?_, ?_, ?_, ?_, ?_⟩
  · exact fromBytes_intoBytes _ (by omega)
  · simp only [Payload.fragments]; omega
  · simp only [Payload.sequence]; omega
  · simp only [Payload.fragment]; omega
  · have hlen : (Payload.intoBytes (F + S * 8 + i * 2 ^ 29)).length = 4 := rfl
    unfold trailerOf
    rw [List.length_append, hlen]
    have harith : msg.length + 4 - 4 = msg.length := by omega
    rw [harith, List.drop_left]
    exact fromBytes_intoBytes _ (by omega)

/-- Witness for C6 at `(F, S, i) = (3, 12345, 2)`. -/
theorem trailer_roundtrip_witness :
    ∃ v, buildTrailer 12345 3 2 = some v ∧
      Payload.fromBytes (Payload.intoBytes v) = v ∧
      Payload.fragments v = 3 ∧ Payload.sequence v = 12345 ∧
      Payload.fragment v = 2 ∧
      trailerOf ([9, 9, 9] ++ Payload.intoBytes v) = v :=
  trailer_roundtrip 3 12345 2 [9, 9, 9] (by decide) (by decide) (by decide)
    (by decide)

/-- C5 — Fragmentation split: with
`F = computeFragments payload_len threshold fragments num_interfaces` and
`F > 1` (payload at least the threshold), fragments `0..F-2` each carry
exactly `payload_len / F` bytes, fragment `F-1` carries
`payload_len / F + payload_len % F` bytes, and concatenating the fragment
payloads in index order restores the original payload; below the threshold
the packet is sent whole (`F = 1`). -/
theorem sender_fragmentation_split (p : List Nat) (thr frags nIf F : Nat)
    (hFdef : F = computeFragments p.length thr frags nIf) :
    (thr ≤ p.length → 1 < F →
      (∀ i, i < F - 1 → (fragmentSlice p F i).length = p.length / F) ∧
      (fragmentSlice p F (F - 1)).length = p.length / F + p.length % F ∧
      ((List.range F).map (fragmentSlice p F)).flatten = p) ∧
    (p.length < thr → F = 1 ∧ fragmentSlice p F 0 = p) := by
  constructor
  · intro _ hF
    exact ⟨fun i hi => fragmentSlice_length_mid p F i hF hi,
      fragmentSlice_length_last p F hF, fragmentSlice_join p F hF⟩
  · intro hthr
    have hF1 : F = 1 := by
      rw [hFdef, computeFragments, if_neg (by omega)]
    subst hF1
    refine ⟨rfl, ?_⟩
    simp [fragmentSlice]

/-- Witness for C5: a 10-byte payload, threshold 4, 3 configured fragments,
5 interfaces, so `F = 3`; the three slices concatenate back to the
payload. -/
theorem sender_fragmentation_split_witness :
    ((List.range 3).map (fragmentSlice (List.range 10) 3)).flatten =
      List.range 10 :=
  (((sender_fragmentation_split (List.range 10) 4 3 5 3 (by decide)).1
    (by decide) (by decide)).2).2

/-- C4 — counterexample: at counter value `2^26` the sender's trailer
construction does not reduce modulo `2^26`; the `with_sequence` bitfield
setter rejects the value (a Rust panic, `none` here), and the whole sender
iteration fails on an otherwise well-formed UDP message. -/
theorem sender_sequence_overflow_cex :
    buildTrailer (2 ^ 26) 1 0 = none ∧
    senderStep sampleSenderConfig [[192, 168, 0, 1]] []
      ⟨2 ^ 26, 0, 0, [0]⟩ sampleSenderMsg = none := by
  constructor
  · decide
  · decide

/-- C1 — on three in-order single-fragment packets with trailer sequences
0, 1, 2 and no timeout elapsing, the embedded receiver emits only the first
packet and leaves `current = recv_current = 0` (`recv_dropped = 0`): the
drain loop sets `current := packet.id` rather than `packet.id + 1`
(`src/receiver.rs` line 234), so sequences 1 and 2 stay buffered. -/
theorem receiver_inorder_emission :
    (runReceiver sampleRecvConfig initialRecvState
      [(samplePacket 0, 1), (samplePacket 1, 2), (samplePacket 2, 3)]).map
      (fun r => (r.2.map Prod.fst, r.1.current, r.1.recvCurrent, r.1.dropped,
        r.1.packets.map Prod.fst)) =
    some ([0], 0, 0, 0, [1, 2]) := by
  decide

/-- C2 — a single-fragment packet with sequence 0 delivered twice is emitted
twice by the embedded receiver and nothing is counted as a past-sequence
drop: after the first emission `current` is still 0 (`current := packet.id`,
`src/receiver.rs` line 234), so the duplicate passes the
`sequence >= current` filter, is re-inserted and re-emitted. -/
theorem receiver_duplicate_suppression :
    (runReceiver sampleRecvConfig initialRecvState
      [(samplePacket 0, 1), (samplePacket 0, 2)]).map
      (fun r => (r.2.map Prod.fst, r.1.dropped)) =
    some ([0, 0], 0) := by
  decide

/-- C3 — a 28-byte UDP message (IPv4 20 + UDP 8, no room for the 4-byte
trailer) passes the receiver's `payload.len() < 28` guard and then panics on
the `udp_full_payload.len() - Payload::len()` slice (`none`), instead of
being dropped and counted; messages shorter than 28 bytes are dropped with
`recv_dropped` incremented by exactly 1. -/
theorem receiver_undersized_handling :
    receiverStep sampleRecvConfig initialRecvState sampleUndersized 1 = none ∧
    (receiverStep sampleRecvConfig initialRecvState (List.replicate 27 0) 1).map
      (fun r => (r.st.dropped, r.st.current, r.emissions)) = some (1, 0, []) := by
  constructor
  · decide
  · decide

/-- C4 (amended) — Sequence counter semantics: on every message the sender
processes as UDP, the 32-bit counter is incremented exactly once per logical
packet — independent of the fragment count — and published to
`send_current`; every tagged copy sent carries a trailer whose 26-bit
sequence field equals the counter modulo `2^26`.  (For counter values
`≥ 2^26` trailer construction does not succeed: the bitfield setter panics,
see the counterexample.) -/
theorem sender_sequence_counter (cfg : SenderConfig)
    (interfaces : List (List Nat)) (sources : List (Nat × SourceM))
    (st : SenderState) (payload : List Nat) (r : SenderStep)
    (hifc : ∀ ifc ∈ interfaces, ifc.length = 4)
    (hsrc : ∀ kv ∈ sources, kv.2.ip.length = 4 ∧
      ∀ ep ∈ kv.2.addrs, ep.1.length = 4)
    (hacc : senderAccepts payload = true)
    (hstep : senderStep cfg interfaces sources st payload = some r) :
    r.st.id = (st.id + 1) % 2 ^ 32 ∧ r.st.sendTotal = st.sendTotal + 1 ∧
    r.st.sendCurrent = (st.id + 1) % 2 ^ 32 ∧
    ∀ s ∈ r.sends, Payload.sequence (trailerOf s.packet) = st.id % 2 ^ 26 := by
  obtain ⟨h1, h2, h3, _, hloop⟩ :=
    senderStep_accept_inv cfg interfaces sources st payload r hacc hstep
  refine ⟨h1, h2, h3, ?_⟩
  intro s hs
  have hacc' := hacc
  simp only [senderAccepts, Bool.and_eq_true, decide_eq_true_eq,
    beq_iff_eq] at hacc'
  obtain ⟨⟨⟨hl20, hp17⟩, hbnd⟩, h5⟩ := hacc'
  have hihl : (setBytes (ipHeader0Of cfg.destination payload) 10 [0, 0]).length =
      ipHeaderLenOf payload := by
    cases cfg.destination <;>
      simp only [ipHeader0Of, length_setBytes, List.length_take,
        ipHeaderLenOf] <;> omega
  have hudp : (setBytes ((payload.drop (ipHeaderLenOf payload)).take 8) 6
      [0, 0]).length = 8 := by
    simp only [length_setBytes, List.length_take, List.length_drop,
      ipHeaderLenOf]
    omega
  have h20 : 20 ≤ ipHeaderLenOf payload := by
    simp only [ipHeaderLenOf]; omega
  obtain ⟨frag, v, htr, hsuf, hseq⟩ :=
    senderLoop_trailer cfg sources _ _ _ _ _ _ _ _ _ hihl hudp h20 hsrc
      interfaces 0 r.sends hifc hloop s hs
  obtain ⟨hid26, hF8, hfrag8, hveq⟩ := buildTrailer_some_inv _ _ _ _ htr
  unfold trailerOf
  rw [hsuf, fromBytes_intoBytes v (by omega)]
  exact hseq

/-- Witness for C4 at the sample message and counter 0: the new counter
value is `(0 + 1) % 2^32`. -/
theorem sender_sequence_counter_witness :
    (⟨⟨1, 1, 1, [1]⟩,
      [⟨0, ([10, 0, 0, 2], 5000), sampleTaggedPacket⟩]⟩ : SenderStep).st.id =
      (0 + 1) % 2 ^ 32 :=
  (sender_sequence_counter sampleSenderConfig [[192, 168, 0, 1]] []
    ⟨0, 0, 0, [0]⟩ sampleSenderMsg _ (by decide) (by decide) (by decide)
    (by decide)).1

/-- C10 — SNAT-mode sender edge case: on a processed UDP message with SNAT
configured, the sender emits, for each egress interface, one tagged datagram
per remote endpoint recorded in `sources[src_port].addrs`, rewriting the IP
source to the Source's `(ip, port)` and the destination to that endpoint;
when the source table has no entry for the packet's source port, nothing is
emitted on any interface, yet the sequence counter, `send_total` and the
per-interface `send_packets` counters are still incremented. -/
theorem sender_snat_source_fanout (cfg : SenderConfig)
    (interfaces : List (List Nat)) (sources : List (Nat × SourceM))
    (st : SenderState) (payload : List Nat) (r : SenderStep)
    (hsnat : cfg.snat = true)
    (hacc : senderAccepts payload = true)
    (hstep : senderStep cfg interfaces sources st payload = some r) :
    r.st.id = (st.id + 1) % 2 ^ 32 ∧ r.st.sendTotal = st.sendTotal + 1 ∧
    r.st.ifacePackets = st.ifacePackets.map (· + 1) ∧
    (lookupSrc sources (resolveSrcPort cfg.strategy payload) = none →
      r.sends = []) ∧
    (∀ source,
      lookupSrc sources (resolveSrcPort cfg.strategy payload) = some source →
      source.ip.length = 4 → (∀ ep ∈ source.addrs, ep.1.length = 4) →
      r.sends.length = interfaces.length * source.addrs.length ∧
      ∀ s ∈ r.sends, s.dest ∈ source.addrs ∧
        getBytes s.packet 12 4 = source.ip ∧
        readBE16 s.packet (ipHeaderLenOf payload) = source.port % 2 ^ 16 ∧
        getBytes s.packet 16 4 = s.dest.1 ∧
        readBE16 s.packet (ipHeaderLenOf payload + 2) = s.dest.2 % 2 ^ 16) := by
  obtain ⟨h1, h2, _, h4, hloop⟩ :=
    senderStep_accept_inv cfg interfaces sources st payload r hacc hstep
  have hacc' := hacc
  simp only [senderAccepts, Bool.and_eq_true, decide_eq_true_eq,
    beq_iff_eq] at hacc'
  obtain ⟨⟨⟨hl20, hp17⟩, hbnd⟩, h5⟩ := hacc'
  have hihl : (setBytes (ipHeader0Of cfg.destination payload) 10 [0, 0]).length =
      ipHeaderLenOf payload := by
    cases cfg.destination <;>
      simp only [ipHeader0Of, length_setBytes, List.length_take,
        ipHeaderLenOf] <;> omega
  have hudp : (setBytes ((payload.drop (ipHeaderLenOf payload)).take 8) 6
      [0, 0]).length = 8 := by
    simp only [length_setBytes, List.length_take, List.length_drop,
      ipHeaderLenOf]
    omega
  have h20 : 20 ≤ ipHeaderLenOf payload := by
    simp only [ipHeaderLenOf]; omega
  obtain ⟨hnone, hsome⟩ :=
    senderLoop_snat cfg sources _ _ _ _ _ _ _ _ _ hsnat hihl hudp h20
      interfaces 0 r.sends hloop
  exact ⟨h1, h2, h4, hnone, hsome⟩

/-- Witness for C10: SNAT mode with an empty source table — no datagram is
emitted but the per-interface packet counter still advances. -/
theorem sender_snat_source_fanout_witness :
    (⟨⟨1, 1, 1, [1]⟩, []⟩ : SenderStep).sends = [] ∧
    (⟨⟨1, 1, 1, [1]⟩, []⟩ : SenderStep).st.ifacePackets =
      [0].map (· + 1) :=
  ⟨(sender_snat_source_fanout sampleSnatSenderConfig [[192, 168, 0, 1]] []
      ⟨0, 0, 0, [0]⟩ sampleSenderMsg _ (by decide) (by decide)
      (by decide)).2.2.2.1 (by decide),
    (sender_snat_source_fanout sampleSnatSenderConfig [[192, 168, 0, 1]] []
      ⟨0, 0, 0, [0]⟩ sampleSenderMsg _ (by decide) (by decide)
      (by decide)).2.2.1⟩

/-- C7 (amended) — Timeout-driven advance: the timeout rule runs only on
iterations whose message passes validation and the sequence filter (drop
paths `continue` before it, see the counterexample).  On such an iteration,
after the message is buffered: if the elapsed time since last progress
strictly exceeds the timeout, `current` is set to the buffer's minimum key
(the buffer is non-empty, having just absorbed the message) and
`recv_dropped` grows by exactly `min_key - old current`; otherwise (also
when the elapsed time equals the timeout exactly) `current` and
`recv_dropped` are unchanged.  The drain loop that follows never changes
`current` further. -/
theorem receiver_timeout_advance (cfg : RecvConfig) (st : RecvState)
    (payload : List Nat) (now : Nat) (r : RecvStep)
    (hids : ∀ kv ∈ st.packets, kv.2.id = kv.1)
    (hacc : recvAccepts st.current payload = true)
    (hstep : receiverStep cfg st payload now = some r) :
    ∃ res, recvBufferOf cfg st payload = some res ∧
      (cfg.timeout < now - st.last →
        ∃ first, minKeyP res.1 = some first ∧ r.st.current = first ∧
          r.st.dropped = st.dropped + (first - st.current)) ∧
      (now - st.last ≤ cfg.timeout →
        r.st.current = st.current ∧ r.st.dropped = st.dropped) := by
  simp only [recvAccepts, Bool.and_eq_true, decide_eq_true_eq,
    beq_iff_eq] at hacc
  obtain ⟨⟨⟨⟨h28, h17⟩, hbnd⟩, h5⟩, hseq⟩ := hacc
  have c1 : ¬ (ipHeaderLenOf payload > payload.length) := by
    simp only [ipHeaderLenOf]; omega
  have c2 : ¬ (payload.length - ipHeaderLenOf payload < 8) := by
    simp only [ipHeaderLenOf]; omega
  have c3 : ¬ (payload.length - ipHeaderLenOf payload - 8 < 4) := by
    simp only [ipHeaderLenOf]; omega
  have c4 : ¬ (ipHeaderLenOf payload < 20) := by
    simp only [ipHeaderLenOf]; omega
  have c5 : ¬ (Payload.sequence (trailerOf payload) < st.current) := by omega
  simp only [receiverStep] at hstep
  rw [if_neg (by omega : ¬ payload.length < 28),
    if_neg (by omega : ¬ payload.getD 9 0 ≠ 17), if_neg c1, if_neg c2,
    if_neg c3, if_neg c4, if_neg c5] at hstep
  cases hbuf : recvBufferOf cfg st payload with
  | none =>
    rw [hbuf] at hstep
    exact absurd hstep (by simp)
  | some res =>
    obtain ⟨packets1, verdicts1⟩ := res
    simp only [hbuf] at hstep
    obtain ⟨hinv1, hne1⟩ := recvBuffer_inv cfg.snat st.packets _ _ _ _ _ _ _ _
      (packets1, verdicts1) hids hbuf
    cases hdrain : drainGo cfg.snat
        (snatSources cfg.snat st.sources
          (readBE16 payload (ipHeaderLenOf payload + 2)))
        (packets1.length + 1) packets1
        (timeoutAdvance cfg.timeout (now - st.last) st.current st.dropped
          packets1).1 st.last now with
    | none =>
      simp only [hdrain] at hstep
      exact absurd hstep (by simp)
    | some quad =>
      obtain ⟨packets2, current2, last2, ems⟩ := quad
      simp only [hdrain, Option.some_inj] at hstep
      subst hstep
      have hcur := drainGo_current cfg.snat _ (packets1.length + 1) packets1
        (timeoutAdvance cfg.timeout (now - st.last) st.current st.dropped
          packets1).1 st.last now (packets2, current2, last2, ems) hinv1 hdrain
      simp only at hcur
      obtain ⟨first, hfirst⟩ := minKeyP_of_ne_nil packets1 hne1
      refine ⟨(packets1, verdicts1), rfl, ?_, ?_⟩
      · intro htime
        have hadv : timeoutAdvance cfg.timeout (now - st.last) st.current
            st.dropped packets1 =
            (first, st.dropped + (first - st.current)) := by
          unfold timeoutAdvance
          rw [if_pos htime, hfirst]
        refine ⟨first, hfirst, ?_, ?_⟩
        · show current2 = first
          rw [hcur, hadv]
        · show (timeoutAdvance cfg.timeout (now - st.last) st.current
            st.dropped packets1).2 = st.dropped + (first - st.current)
          rw [hadv]
      · intro htime
        have hadv : timeoutAdvance cfg.timeout (now - st.last) st.current
            st.dropped packets1 = (st.current, st.dropped) := by
          unfold timeoutAdvance
          rw [if_neg (by omega)]
        constructor
        · show current2 = st.current
          rw [hcur, hadv]
        · show (timeoutAdvance cfg.timeout (now - st.last) st.current
            st.dropped packets1).2 = st.dropped
          rw [hadv]

/-- C7 — counterexample to the claim as stated: a receiver iteration whose
message is dropped (here a 10-byte undersized message) skips the timeout
rule entirely even though the elapsed time (200 ms) strictly exceeds the
timeout (100 ms) and the buffer is non-empty (an entry at key 5): `current`
stays 0 and only the undersize drop is counted, where the claim requires
`current = 5` and `recv_dropped` to grow by 5. -/
theorem receiver_timeout_skip_cex :
    (receiverStep sampleRecvConfig
      ⟨[(5, sampleBufferedPacket)], 0, 0, [], 0, 0, 0, 0⟩
      (List.replicate 10 0) 200).map (fun r => (r.st.current, r.st.dropped)) =
      some (0, 1) := by
  decide

/-- Witness for C7 (amended): `samplePacket 5` arriving at the initial state
at time 200 (timeout 100) advances `current` to the buffer minimum 5 and
counts 5 drops. -/
theorem receiver_timeout_advance_witness :
    sampleTimeoutStep.st.current = 5 ∧
    sampleTimeoutStep.st.dropped = 0 + (5 - 0) := by
  obtain ⟨res, hres, hthen, _⟩ := receiver_timeout_advance sampleRecvConfig
    initialRecvState (samplePacket 5) 200 sampleTimeoutStep (by decide)
    (by decide) (by decide)
  obtain ⟨first, hmin, hcur, hdrop⟩ := hthen (by decide)
  have hres5 : minKeyP res.1 = some 5 := by
    have hL : recvBufferOf sampleRecvConfig initialRecvState
        (samplePacket 5) = some ([(5,
          ⟨5, [69, 0, 0, 32, 0, 0, 0, 0, 64, 17, 0, 0, 10, 0, 0, 1,
            10, 0, 0, 2, 15, 160, 19, 136, 0, 12, 0, 0], 20, [none],
          ([10, 0, 0, 2], 5000), true, some (samplePacket 5)⟩)], []) := by
      decide
    rw [hL] at hres
    have hres' := Option.some_inj.mp hres
    rw [← hres']
    decide
  rw [hmin] at hres5
  have hfirst5 : first = 5 := Option.some_inj.mp hres5
  subst hfirst5
  exact ⟨hcur, hdrop⟩

/-- C9 — after the receiver accepts a fragment in forward mode, the held
queue-message buffer still contains the original trailer bytes
`[2, 0, 0, 0]` at its tail: the zeroing loop of `src/receiver.rs` lines
107-110 operates on the owned `[u8; 4]` copy (`zeroCopy`), not on the
message buffer. -/
theorem receiver_trailer_not_blanked :
    (receiverStep sampleRecvConfig initialRecvState sampleFragPacket 1).map
      (fun r => (lookupP r.st.packets 0).map
        (fun p => p.msg.map (fun m => m.drop 30))) =
      some (some (some [2, 0, 0, 0])) ∧
    zeroCopy [2, 0, 0, 0] = [0, 0, 0, 0] ∧
    ([2, 0, 0, 0] : List Nat) ≠ [0, 0, 0, 0] := by
  refine ⟨?_, ?_, ?_⟩
  · decide
  · decide
  · decide

end Unison
